import Mathlib

/-!
Verification of the entity consolidation and bridging core of the
ic-design-knowledge-graph repository, as a shallow embedding in Lean 4.

The embedding follows the Python / AQL source:
  * `src/utils.py`            — `normalize_hardware_name`
  * `src/bridger.py`          — interactive bridging path
                                (`process_item_to_entity`,
                                 `bridge_collection_parallel`, `bridge_all`)
  * `src/bridger_bulk.py`     — bulk AQL bridging path
                                (`bulk_bridge_collection`)
  * `src/consolidator.py`     — stage-2 fuzzy consolidation
                                (`consolidate_fuzzy_stage2`)

External collaborators (the ArangoSearch relevance engine / BM25 ranking,
the `entity_resolution` similarity library, the ArangoDB `TOKENS` text
analyzer, and the `Golden_Relations` graph traversal) are abstracted as
parameters of the model; everything the repository itself computes —
normalization, type filtering, lexical and context boosts, graph-aware
boosts, thresholding, best-match selection, Levenshtein distance,
confidence blending, union-find grouping and cluster merging — is
embedded concretely.

Machine arithmetic: all scores are exact rationals (the Python floats
never lose precision on the constants involved in the claims; the claims
are about the scoring formulas, not float rounding).
-/

attribute [local semireducible] Rat.mul Rat.add Rat.sub Rat.inv

/-! ## Character and string utilities -/

/-- Whitespace characters recognised by Python `str.strip` / `str.split`
and by AQL `TRIM` (ASCII fragment). -/
def isWsChar (c : Char) : Bool :=
  c == ' ' || c == '\t' || c == '\n' || c == '\r' || c == '\x0b' || c == '\x0c'

/-- ASCII lower-casing of one character, the fragment of Python
`str.lower` and AQL `LOWER` exercised by the repository's identifiers. -/
def lowerChar (c : Char) : Char :=
  if 65 ≤ c.toNat ∧ c.toNat ≤ 90 then Char.ofNat (c.toNat + 32) else c

/-- Lower-case all characters of a list. -/
def lowerChars (l : List Char) : List Char :=
  l.map lowerChar

/-- Strip leading and trailing whitespace (Python `str.strip`,
AQL `TRIM`). -/
def trimWs (l : List Char) : List Char :=
  ((l.dropWhile isWsChar).reverse.dropWhile isWsChar).reverse

/-- Maximal runs of characters satisfying `keep`, in order, empty runs
dropped.  With `keep = not ∘ isWsChar` this is Python `str.split()`;
with `keep = isWordChar` it is `re.findall(r'\w+', ·)`. -/
def splitRuns (keep : Char → Bool) (l : List Char) : List (List Char) :=
  let p := l.foldr
    (fun c (acc : List Char × List (List Char)) =>
      if keep c then (c :: acc.1, acc.2)
      else ([], if acc.1 = [] then acc.2 else acc.1 :: acc.2))
    ([], [])
  if p.1 = [] then p.2 else p.1 :: p.2

/-- Python `str.split()` (split on whitespace runs, no empty tokens). -/
def splitWsStr (s : String) : List String :=
  (splitRuns (fun c => !isWsChar c) s.data).map List.asString

/-- Word characters of Python's `re` `\w` class (ASCII fragment). -/
def isWordChar (c : Char) : Bool :=
  c.isAlpha || c.isDigit || c == '_'

/-- Keep the final `"."`-separated segment: Python `s.split(".")[-1]`
for a non-empty `s`. -/
def lastDotSegment (l : List Char) : List Char :=
  (l.reverse.takeWhile (fun c => c ≠ '.')).reverse

/-- Steps 1-2 of `normalize_hardware_name` (src/utils.py:32-34):
lower-case, then strip a leading `"or1200_"`. -/
def normStep1 (l : List Char) : List Char :=
  if "or1200_".data.isPrefixOf (lowerChars l) then (lowerChars l).drop 7 else lowerChars l

/-- Step 3 of `normalize_hardware_name` (src/utils.py:37-38): reduce a
dotted qualifier to its final segment. -/
def normStep2 (l : List Char) : List Char :=
  if (normStep1 l).contains '.' then lastDotSegment (normStep1 l) else normStep1 l

/-- Core of `normalize_hardware_name` (src/utils.py:21-40) on a list of
characters: lower-case, strip the `"or1200_"` prefix, keep the last
dotted segment, replace underscores by spaces, strip whitespace. -/
def normChars (l : List Char) : List Char :=
  trimWs ((normStep2 l).map (fun c => if c = '_' then ' ' else c))

/-- `normalize_hardware_name` (src/utils.py:21-40).  The Python guard
`if not name: return ""` covers the empty string; `None` is covered by
`normalize_hardware_name_opt` below. -/
def normalize_hardware_name (name : String) : String :=
  if name = "" then "" else (normChars name.data).asString

/-- `normalize_hardware_name` on an optional input: Python callers may
pass `None`, which the `if not name` guard also maps to `""`. -/
def normalize_hardware_name_opt : Option String → String
  | none => ""
  | some s => normalize_hardware_name s

/-- Fueled Levenshtein recursion (the fuel only serves structural
termination; `lev` supplies `|xs| + |ys|`, which is enough since every
recursive call shrinks the combined length, so the fuel-exhausted
branch is only reached on two empty lists, where its value 0 is the
correct distance). -/
def levAux : Nat → List Char → List Char → Nat
  | 0, xs, ys => xs.length + ys.length
  | _ + 1, [], ys => ys.length
  | _ + 1, x :: xs, [] => (x :: xs).length
  | n + 1, x :: xs, y :: ys =>
      if x = y then levAux n xs ys
      else 1 + min (levAux n xs (y :: ys)) (min (levAux n (x :: xs) ys) (levAux n xs ys))

/-- Levenshtein edit distance on character lists, the semantics of AQL
`LEVENSHTEIN_DISTANCE` (src/consolidator.py:211, src/bridger_bulk.py:123). -/
def lev (xs ys : List Char) : Nat :=
  levAux (xs.length + ys.length) xs ys

/-! ## Generic executable helpers (kernel-reducible stand-ins for
stable sorting and splitting) -/

/-- Insert `x` into `l` in front of the first element `y` with
`le x y`. -/
def insLe {α : Type} (le : α → α → Bool) (x : α) : List α → List α
  | [] => [x]
  | y :: ys => if le x y then x :: y :: ys else y :: insLe le x ys

/-- Stable insertion sort.  For a total preorder `le` this computes the
same list as Python's stable `list.sort` with the comparison `le`
(used here only with score-descending comparisons, where Python's
`sort(reverse=True)` is stable as well). -/
def stableSortBy {α : Type} (le : α → α → Bool) (l : List α) : List α :=
  l.foldr (insLe le) []

/-- Split a character list on a separator character: Python
`s.split(sep)` (keeps empty segments, `"" ↦ [""]`). -/
def splitOnChar (sep : Char) (l : List Char) : List (List Char) :=
  l.foldr
    (fun c acc =>
      match acc with
      | [] => [[c]]
      | w :: ws => if c = sep then [] :: (w :: ws) else (c :: w) :: ws)
    [[]]

/-- Boolean substring containment: `containsSub big small` is Python's
`small in big` and AQL `CONTAINS(big, small)`. -/
def containsSub : List Char → List Char → Bool
  | [], small => small.isEmpty
  | b :: bs, small => small.isPrefixOf (b :: bs) || containsSub bs small

/-- Substring containment on strings. -/
def strContainsSub (big small : String) : Bool :=
  containsSub big.data small.data

deriving instance DecidableEq for Except

/-- Fueled first-occurrence deduplication (every step shrinks the list,
so fuel `|l|` is enough and the fuel-exhausted branch is only reached on
the empty list). -/
def dedupAux {α : Type} [DecidableEq α] : Nat → List α → List α
  | 0, l => l
  | _ + 1, [] => []
  | n + 1, x :: xs => x :: dedupAux n (xs.filter (fun y => y ≠ x))

/-- First-occurrence deduplication: the semantics of Python's
`list(set(…))` up to ordering (modelled as keeping first occurrences,
which the development uses only order-insensitively) and of AQL
`INTERSECTION`'s distinct values. -/
def dedupKeepFirst {α : Type} [DecidableEq α] (l : List α) : List α :=
  dedupAux l.length l

/-! ## Collection names (src/config.py, with the default
`GRAPHRAG_PREFIX = "OR1200_"`) -/

def COL_MODULE : String := "RTL_Module"

def COL_PORT : String := "RTL_Port"

def COL_SIGNAL : String := "RTL_Signal"

def COL_LOGIC : String := "RTL_LogicChunk"

def COL_BUS : String := "BusInterface"

def COL_CLOCK : String := "ClockDomain"

def COL_FSM : String := "FSM_StateMachine"

def COL_PARAMETER : String := "RTL_Parameter"

def COL_MEMORY : String := "RTL_Memory"

def COL_ENTITIES : String := "OR1200_Golden_Entities"

/-! ## Data model (§3 of the spec; the flat record shapes the bridging
and consolidation code reads) -/

/-- A golden (concept) entity document as read by the bridging queries:
`_id`, `entity_name`, `description`, `entity_type` (nullable). -/
structure Entity where
  id : String
  entity_name : String
  description : String
  entity_type : Option String
  deriving DecidableEq, Repr

/-- A structural-element document.  String fields model the dictionary
fields the bridging code reads with `.get(…, "")`; an absent or null
field is the empty string. -/
structure Item where
  id : String
  key : String
  label : String
  name : String
  expanded_name : String
  mdSummary : String
  mdDescription : String
  interface_type : String
  parent_label : String
  deriving DecidableEq, Repr

/-- A resolution edge (`RESOLVED_TO` document):
`{_from, _to, score, method, graph_aware}`. -/
structure REdge where
  src : String
  dst : String
  score : ℚ
  method : String
  graph_aware : Bool
  deriving DecidableEq, Repr

/-- Type Compatibility Matrix (src/bridger.py:47-57 and the identical
table in src/bridger_bulk.py:41-51): structural collection name ↦
admissible golden-entity types.  `none` models the Python `None`
element; a collection outside the table maps to the empty list
(`TYPE_COMPATIBILITY.get(source_col, set())`). -/
def TYPE_COMPATIBILITY (col : String) : List (Option String) :=
  if col = COL_MODULE then
    [some "processor_component", some "architecture_feature", some "memory_unit",
     some "hardware_interface", some "configuration", some "UNKNOWN", none]
  else if col = COL_PORT then
    [some "register", some "signal", some "hardware_interface",
     some "architecture_feature", some "UNKNOWN", none]
  else if col = COL_SIGNAL then
    [some "register", some "signal", some "architecture_feature", some "UNKNOWN", none]
  else if col = COL_LOGIC then
    [some "instruction", some "architecture_feature", some "configuration",
     some "exception_type", some "UNKNOWN", none]
  else if col = COL_BUS then
    [some "hardware_interface", some "bus_protocol", some "architecture_feature",
     some "processor_component", some "UNKNOWN", none]
  else if col = COL_CLOCK then
    [some "architecture_feature", some "clock_domain", some "processor_component",
     some "UNKNOWN", none]
  else if col = COL_FSM then
    [some "architecture_feature", some "state_machine", some "processor_component",
     some "UNKNOWN", none]
  else if col = COL_PARAMETER then
    [some "configuration", some "UNKNOWN", none]
  else if col = COL_MEMORY then
    [some "memory_unit", some "processor_component", some "UNKNOWN", none]
  else []

/-- Stop words removed by `calculate_token_overlap`
(src/bridger.py:197). -/
def stop_words : List String :=
  ["the", "a", "an", "is", "are", "of", "in", "to", "for", "and", "or", "be",
   "with", "on", "at", "by", "this", "that", "it"]

/-- The stop-word-free word-token set of a text
(src/bridger.py:193-199): `set(re.findall(r'\w+', text.lower()))` minus
the stop words. -/
def overlapTokens (t : String) : List String :=
  (dedupKeepFirst ((splitRuns isWordChar (lowerChars t.data)).map List.asString)).filter
    (fun w => w ∉ stop_words)

/-- `calculate_token_overlap` (src/bridger.py:190-207): overlap
coefficient of the stop-word-free word-token sets of two texts. -/
def calculate_token_overlap (text1 text2 : String) : ℚ :=
  if text1 = "" ∨ text2 = "" then 0
  else if overlapTokens text1 = [] ∨ overlapTokens text2 = [] then 0
  else if 0 < min (overlapTokens text1).length (overlapTokens text2).length then
    (((overlapTokens text1).filter (fun w => w ∈ overlapTokens text2)).length : ℚ) /
      (min (overlapTokens text1).length (overlapTokens text2).length : ℚ)
  else 0

/-! ## The abstracted external search collaborator

The ArangoSearch `SEARCH` condition and `BM25` relevance are the
external ranked-search collaborator (§6 of the spec); they are
abstracted as an arbitrary match predicate and ranking key.  What the
repository contributes — the same-collection restriction, the
`entity_type IN @compatible_types` pre-filter, `SORT BM25 DESC`,
`LIMIT 10` — is embedded concretely.  `queryFails` models a failure of
the candidate-retrieval call for one item (collaborator unreachable or
malformed response); `trav` models the depth-1..2 `Golden_Relations`
traversal, which may itself fail. -/
structure SearchDb where
  entities : List Entity
  srch : Item → Entity → Bool
  rankOf : Item → Entity → ℚ
  queryFails : Item → Bool
  trav : List String → Except Unit (List String)

/-- Candidate retrieval: the concrete part of the AQL query of
`process_item_to_entity` (src/bridger.py:310-326) and of the per-item
candidate subquery of `bulk_bridge_collection`
(src/bridger_bulk.py:201-212): filter to the entities collection and to
compatible types, rank by the collaborator's relevance, keep the top
10. -/
def retrieveCandidates (db : SearchDb) (item : Item) (compat : List (Option String)) :
    List Entity :=
  (stableSortBy (fun a b => decide (db.rankOf item b ≤ db.rankOf item a))
    (db.entities.filter (fun e => db.srch item e && decide (e.entity_type ∈ compat)))).take 10

/-- `get_related_entities` (src/bridger.py:150-187): expand parent
entity ids one-to-two hops through `Golden_Relations`; the result
includes the parents themselves; a traversal failure degrades to just
the parent ids (the `except` branch). -/
def get_related_entities (db : SearchDb) (parentIds : List String) : List String :=
  if parentIds = [] then []
  else
    match db.trav parentIds with
    | .ok l => l ++ parentIds
    | .error _ => parentIds

/-- Search-term set construction (src/bridger.py:228-239): the
normalized label, plus the normalized expanded name when distinct, plus
the normalized interface type when new. -/
def searchTermsOf (searchTerm expandedName interfaceType : String) : List String :=
  let st1 := [searchTerm]
  let st2 :=
    if expandedName ≠ "" then
      let en := normalize_hardware_name expandedName
      if en ≠ "" ∧ en ≠ searchTerm then st1 ++ [en] else st1
    else st1
  if interfaceType ≠ "" then
    let inorm := normalize_hardware_name interfaceType
    if inorm ≠ "" ∧ inorm ∉ st2 then st2 ++ [inorm] else st2
  else st2

/-- Python `max(search_terms, key=len)` (src/bridger.py:245): the first
term of maximal length. -/
def maxByLen : List String → String
  | [] => ""
  | t :: ts => ts.foldl (fun acc u => if acc.length < u.length then u else acc) t

/-- Token-set subset test used by the lexical boost
(src/bridger.py:360-362): `set(s.split()) <= set(t.split())`. -/
def tokenSubset (s t : String) : Bool :=
  (splitWsStr s).all (fun w => w ∈ splitWsStr t)

/-- Per-candidate score before the graph-aware step
(src/bridger.py:335-381): base multi-field similarity (the external
`WeightedFieldSimilarity.compute`, abstracted as `sim`), then the
lexical boost (max with 0.95 / 0.85 / 0.80), then the context
blending (`0.7·score + 0.3·overlap`, or `0.9·score` on context
mismatch). -/
def scoreBeforeGraph (sim : String × String → String × String → ℚ)
    (searchTerms : List String) (bestSourceName sourceDescription contextSummary : String)
    (cand : Entity) : ℚ :=
  let nCand := normalize_hardware_name cand.entity_name
  let er := sim (bestSourceName, sourceDescription)
    (nCand, if cand.description ≠ "" then cand.description else nCand)
  let lexicalMatch := searchTerms.any
    (fun s => s == nCand || tokenSubset s nCand || tokenSubset nCand s)
  let afterLex :=
    if lexicalMatch then
      max er (if searchTerms.any (fun s => s == nCand) then (95 : ℚ)/100 else (85 : ℚ)/100)
    else if searchTerms.any (fun s => strContainsSub nCand s || strContainsSub s nCand) then
      max er ((80 : ℚ)/100)
    else er
  if contextSummary ≠ "" then
    let overlap := calculate_token_overlap contextSummary cand.description
    if 0 < overlap then afterLex * (7/10) + overlap * (3/10) else afterLex * (9/10)
  else afterLex

/-- Graph-aware context step (src/bridger.py:383-391): inside a
non-empty neighborhood the score is boosted by 20 % and capped at 1.0;
outside a non-empty neighborhood it is multiplied by 0.95; with no
context it is unchanged. -/
def finalScoreOf (related : List String) (candId : String) (s : ℚ) : ℚ :=
  if related ≠ [] ∧ candId ∈ related then min 1 (s * (6/5))
  else if related ≠ [] then s * (19/20)
  else s

/-- Post-retrieval scoring and best-match selection of
`process_item_to_entity` (src/bridger.py:331-410): score every
candidate, keep those strictly above the threshold, stable-sort by
score descending and keep the single best match. -/
def processItemCore (sim : String × String → String × String → ℚ)
    (searchTerms : List String) (bestSourceName sourceDescription contextSummary : String)
    (related : List String) (threshold : ℚ) (method : String) (itemId : String)
    (cands : List Entity) : List REdge :=
  let matchList := cands.filterMap (fun c =>
    let fs := finalScoreOf related c.id
      (scoreBeforeGraph sim searchTerms bestSourceName sourceDescription contextSummary c)
    if threshold < fs then
      some { src := itemId, dst := c.id, score := fs, method := method,
             graph_aware := !related.isEmpty && related.contains c.id }
    else none)
  (stableSortBy (fun a b => decide (b.score ≤ a.score)) matchList).take 1

/-- `process_item_to_entity` (src/bridger.py:209-410).  The result is
`Except`-valued because the candidate-retrieval call
(`db.aql.execute(query, …)`, line 329) is *not* wrapped in a
`try/except`: its failure propagates out of the function.  The
parent-context traversal failure, by contrast, is caught inside
`get_related_entities`. -/
def process_item_to_entity (db : SearchDb) (sim : String × String → String × String → ℚ)
    (item : Item) (threshold : ℚ) (method : String) (contextSummary : String)
    (parentEntityIds : Option (List String)) : Except Unit (List REdge) :=
  let label := if item.label ≠ "" then item.label else item.name
  if label = "" then .ok []
  else
    let rtlDescription := if item.mdSummary ≠ "" then item.mdSummary else item.mdDescription
    let searchTerm := normalize_hardware_name label
    if searchTerm = "" ∨ searchTerm.length < 2 then .ok []
    else
      let searchTerms := searchTermsOf searchTerm item.expanded_name item.interface_type
      let bestSourceName := maxByLen searchTerms
      let sourceDescription := label
        ++ (if item.parent_label ≠ "" then
              " in " ++ normalize_hardware_name item.parent_label else "")
        ++ (if rtlDescription ≠ "" then " " ++ rtlDescription else "")
      let sourceCol := (item.id.data.takeWhile (fun c => c ≠ '/')).asString
      let compat := TYPE_COMPATIBILITY sourceCol
      let related :=
        match parentEntityIds with
        | none => []
        | some ps => if ps = [] then [] else get_related_entities db ps
      if db.queryFails item then .error ()
      else
        .ok (processItemCore sim searchTerms bestSourceName sourceDescription
          contextSummary related threshold method item.id
          (retrieveCandidates db item compat))

/-! ## Batch orchestration of the interactive path
(src/bridger.py:412-500 and 561-589) -/

/-- A module document as pre-fetched by `bridge_collection_parallel`
(src/bridger.py:427-430): label and metadata summary. -/
structure ModuleDoc where
  label : String
  summary : String
  deriving DecidableEq, Repr

/-- Golden entities a module is already resolved to, read from the
`RESOLVED_TO` edges (the pre-fetch query of src/bridger.py:433-445,
grouping edges whose `_from` starts with `RTL_Module/`). -/
def moduleResolvedEntities (resolved : List REdge) (modName : String) : List String :=
  (resolved.filter (fun e => e.src == COL_MODULE ++ "/" ++ modName)).map (fun e => e.dst)

/-- Per-item context preparation inside the fan-out loop
(src/bridger.py:452-470): for ports and signals, the parent module name
is the part of `_key` before the first dot; its summary, label and
already-resolved entities are looked up in the pre-fetched maps.
Returns `(context_summary, parent_label, parent_entity_ids)`. -/
def itemStageContext (colName : String) (modules : List ModuleDoc)
    (resolved : List REdge) (item : Item) : String × String × Option (List String) :=
  if colName = COL_PORT ∨ colName = COL_SIGNAL then
    let parts := splitOnChar '.' item.key.data
    if 1 < parts.length then
      let modName := (parts.headD []).asString
      let ctx := ((modules.find? (fun m => m.label == modName)).map (fun m => m.summary)).getD ""
      let plabel := if modules.any (fun m => m.label == modName) then modName else ""
      let l := moduleResolvedEntities resolved modName
      (ctx, plabel, if l = [] then none else some l)
    else ("", "", none)
  else ("", "", none)

/-- Fan-out / fan-in of `bridge_collection_parallel`
(src/bridger.py:449-486): every item is processed (the thread pool only
parallelises the remote calls; workers share no mutable state and their
result lists are concatenated after the fan-in barrier; the model fixes
the nondeterministic `as_completed` order to item order, which only
permutes the edge list).  If any worker raised, `future.result()`
re-raises in the collecting loop, so the whole batch fails with no
edges inserted. -/
def collectStageEdges (db : SearchDb) (sim : String × String → String × String → ℚ)
    (modules : List ModuleDoc) (colName : String) (threshold : ℚ) (method : String)
    (resolved : List REdge) : List Item → Except Unit (List REdge)
  | [] => .ok []
  | item :: rest =>
      let c := itemStageContext colName modules resolved item
      match process_item_to_entity db sim { item with parent_label := c.2.1 }
          threshold method c.1 c.2.2 with
      | .error e => .error e
      | .ok l =>
          match collectStageEdges db sim modules colName threshold method resolved rest with
          | .error e => .error e
          | .ok ls => .ok (l ++ ls)

/-- `bridge_collection_parallel` (src/bridger.py:412-500), acting on
the `RESOLVED_TO` edge store: edges are inserted — and, when requested,
the store is truncated first — only under `if resolved_edges:`
(src/bridger.py:488-494); with no new edges the store is left as it
was, truncation included. -/
def bridge_collection_parallel (db : SearchDb) (sim : String × String → String × String → ℚ)
    (modules : List ModuleDoc) (colName : String) (items : List Item)
    (threshold : ℚ) (method : String) (truncate : Bool) (resolved : List REdge) :
    Except Unit (List REdge) :=
  match collectStageEdges db sim modules colName threshold method resolved items with
  | .error e => .error e
  | .ok edges =>
      if edges ≠ [] then
        .ok ((if truncate then [] else resolved) ++ edges)
      else
        .ok resolved

/-- The per-collection inputs of a full bridging run: the upstream
collections read by `bridge_all` (src/bridger.py:561-589).  The logic
stage (`bridge_logic_parallel`) writes the separate `REFERENCES`
collection, not `RESOLVED_TO`, and is outside this model. -/
structure RunInput where
  modules : List ModuleDoc
  busItems : List Item
  clockItems : List Item
  fsmItems : List Item
  paramItems : List Item
  memItems : List Item
  moduleItems : List Item
  portItems : List Item
  signalItems : List Item
  deriving Repr

/-- One stage of `bridge_all`: a collection name, its items, the stage
threshold, the edge-method tag and the truncate flag. -/
structure StageDesc where
  colName : String
  items : List Item
  threshold : ℚ
  method : String
  truncate : Bool

/-- Run a list of stages strictly in sequence, each reading the
`RESOLVED_TO` store left by its predecessors; a stage failure aborts
the run. -/
def runStages (db : SearchDb) (sim : String × String → String × String → ℚ)
    (modules : List ModuleDoc) : List StageDesc → List REdge → Except Unit (List REdge)
  | [], r => .ok r
  | d :: ds, r =>
      match bridge_collection_parallel db sim modules d.colName d.items d.threshold
          d.method d.truncate r with
      | .error e => .error e
      | .ok r1 => runStages db sim modules ds r1

/-- The stage sequence of `bridge_all` (src/bridger.py:567-582):
architectural stages at threshold 0.5 with the bus stage asking for a
truncate, the module stage at 0.7, the port/signal stages at 0.6. -/
def bridgeStages (inp : RunInput) : List StageDesc :=
  [⟨COL_BUS, inp.busItems, 1/2, "arch_bridging_bus", true⟩,
   ⟨COL_CLOCK, inp.clockItems, 1/2, "arch_bridging_clock", false⟩,
   ⟨COL_FSM, inp.fsmItems, 1/2, "arch_bridging_fsm", false⟩,
   ⟨COL_PARAMETER, inp.paramItems, 1/2, "arch_bridging_param", false⟩,
   ⟨COL_MEMORY, inp.memItems, 1/2, "arch_bridging_mem", false⟩,
   ⟨COL_MODULE, inp.moduleItems, 7/10, "module_bridging_v2_poly", false⟩,
   ⟨COL_PORT, inp.portItems, 3/5, "deep_bridging_v2_p", false⟩,
   ⟨COL_SIGNAL, inp.signalItems, 3/5, "deep_bridging_v2_s", false⟩]

/-- `bridge_all` (src/bridger.py:561-589) restricted to its
`RESOLVED_TO` writes. -/
def bridge_all (db : SearchDb) (sim : String × String → String × String → ℚ)
    (inp : RunInput) (resolved0 : List REdge) : Except Unit (List REdge) :=
  runStages db sim inp.modules (bridgeStages inp) resolved0

/-- Number of resolution edges whose source is `x`. -/
def countSrc (es : List REdge) (x : String) : Nat :=
  (es.filter (fun e => e.src == x)).length

/-! ## The bulk AQL path (src/bridger_bulk.py) -/

/-- AQL `REGEX_REPLACE(name, '\s+', ' ', true)`: collapse every
whitespace run to a single space (src/bridger_bulk.py:116). -/
def collapseWsAux : Bool → List Char → List Char
  | _, [] => []
  | inRun, c :: cs =>
      if isWsChar c then
        if inRun then collapseWsAux true cs else ' ' :: collapseWsAux true cs
      else c :: collapseWsAux false cs

def collapseWs (l : List Char) : List Char :=
  collapseWsAux false l

/-- AQL `SUBSTITUTE(target, pat, rep)`: replace every (leftmost,
non-overlapping) occurrence of `pat` in `target` by `rep`
(src/bridger_bulk.py:116). -/
def substituteAllAux (pat rep : List Char) : Nat → List Char → List Char
  | 0, l => l
  | _ + 1, [] => []
  | n + 1, c :: cs =>
      if pat.isPrefixOf (c :: cs) then
        rep ++ substituteAllAux pat rep n ((c :: cs).drop pat.length)
      else
        c :: substituteAllAux pat rep n cs

def substituteAll (pat rep : List Char) (target : List Char) : List Char :=
  if pat = [] then target else substituteAllAux pat rep target.length target

/-- `normalize_name_aql` (src/bridger_bulk.py:112-116): the AQL
expression
`LOWER(TRIM(SUBSTITUTE(SUBSTITUTE(name,'_',' '), REGEX_REPLACE(name,'\s+',' ',true), ' ')))`
— note that this is *not* `normalize_hardware_name`: it neither strips
the `or1200_` prefix nor reduces dotted qualifiers, and it substitutes
the whitespace-collapsed original name by a space. -/
def normalize_name_aql (l : List Char) : List Char :=
  lowerChars (trimWs (substituteAll (collapseWs l) [' ']
    (l.map (fun c => if c = '_' then ' ' else c))))

/-- `normalize_name_aql` on strings. -/
def bulkNormStr (s : String) : String :=
  (normalize_name_aql s.data).asString

/-- `approximate_jaro_winkler_aql` (src/bridger_bulk.py:119-123): the
AQL expression
`1.0 - LEVENSHTEIN_DISTANCE(s1,s2) / MAX([LENGTH(s1), LENGTH(s2), 1])`. -/
def approximate_jaro_winkler_aql (n1 n2 : List Char) : ℚ :=
  1 - (lev n1 n2 : ℚ) / (max n1.length (max n2.length 1) : ℚ)

/-- The architectural collections, whose label field is `name`
(src/bridger_bulk.py:152). -/
def isArchCollection (colName : String) : Bool :=
  colName == COL_BUS || colName == COL_CLOCK || colName == COL_FSM ||
  colName == COL_PARAMETER || colName == COL_MEMORY

/-- Per-item semantics of the bulk AQL query of
`bulk_bridge_collection` (src/bridger_bulk.py:126-247): normalize the
label with `normalize_name_aql`, retrieve type-compatible candidates,
score with the approximate Jaro-Winkler, apply the exact/substring
lexical boost (no token-subset case), multiply by the graph boost
(1.20 / 0.95 / 1.0 — no cap), filter strictly above the threshold and
keep the best match.  For ports/signals the parent module name is
`SPLIT(item._key, '.')[0]` (no length guard), and the traversal failure
is not caught: it fails the whole query. -/
def bulkRelated (db : SearchDb) (resolved : List REdge) (colName : String)
    (item : Item) : Except Unit (List String) :=
  if colName = COL_PORT ∨ colName = COL_SIGNAL then
    let modName := ((splitOnChar '.' item.key.data).headD []).asString
    let parents := moduleResolvedEntities resolved modName
    if parents ≠ [] then db.trav parents else .ok []
  else .ok []

/-- Lexically boosted candidate score of the bulk query
(src/bridger_bulk.py:213-220): approximate Jaro-Winkler base,
`MAX`-ed with 0.95 on exact normalized match or 0.80 on substring
containment (there is no token-subset case here, unlike the
interactive path). -/
def bulkScoreWithLexical (normLabel : String) (c : Entity) : ℚ :=
  let normCand := bulkNormStr c.entity_name
  let base := approximate_jaro_winkler_aql normLabel.data normCand.data
  let isExactMatch := normLabel == normCand
  let isSubstring := strContainsSub normCand normLabel || strContainsSub normLabel normCand
  let lexicalBoost := if isExactMatch then (95 : ℚ)/100
    else if isSubstring then (80 : ℚ)/100 else base
  max base lexicalBoost

/-- Graph boost factor of the bulk query (src/bridger_bulk.py:180-185):
1.20 inside a non-empty neighborhood, 0.95 outside one, 1.0 with no
context — applied by plain multiplication, with no cap. -/
def bulkGraphBoost (related : List String) (candId : String) : ℚ :=
  if related ≠ [] ∧ candId ∈ related then 6/5
  else if related ≠ [] then 19/20 else 1

def bulk_process_item (db : SearchDb) (resolved : List REdge) (colName : String)
    (threshold : ℚ) (method : String) (item : Item) : Except Unit (List REdge) :=
  let itemLabel := if isArchCollection colName then item.name else item.label
  if itemLabel.length < 2 then .ok []
  else
    let normLabel := bulkNormStr itemLabel
    match bulkRelated db resolved colName item with
    | .error e => .error e
    | .ok related =>
        let cands := retrieveCandidates db item (TYPE_COMPATIBILITY colName)
        let matchList := cands.filterMap (fun c =>
          let finalScore := bulkScoreWithLexical normLabel c * bulkGraphBoost related c.id
          if threshold < finalScore then
            some { src := item.id, dst := c.id, score := finalScore, method := method,
                   graph_aware := decide (1 < bulkGraphBoost related c.id) }
          else none)
        .ok ((stableSortBy (fun a b => decide (b.score ≤ a.score)) matchList).take 1)

def bulkCollectEdges (db : SearchDb) (resolved : List REdge) (colName : String)
    (threshold : ℚ) (method : String) : List Item → Except Unit (List REdge)
  | [] => .ok []
  | item :: rest =>
      match bulk_process_item db resolved colName threshold method item with
      | .error e => .error e
      | .ok l =>
          match bulkCollectEdges db resolved colName threshold method rest with
          | .error e => .error e
          | .ok ls => .ok (l ++ ls)

/-- `bulk_bridge_collection` (src/bridger_bulk.py:126-289) acting on
the `RESOLVED_TO` store: one set-oriented query computes every item's
best match (a failure anywhere in the query fails the whole stage —
the `except` clause re-raises, src/bridger_bulk.py:287-289); insertion
— and the optional truncate — happen only under `if len(edges) > 0:`
(src/bridger_bulk.py:265-275). -/
def bulk_bridge_collection (db : SearchDb) (colName : String) (items : List Item)
    (threshold : ℚ) (method : String) (truncate : Bool) (resolved : List REdge) :
    Except Unit (List REdge) :=
  match bulkCollectEdges db resolved colName threshold method items with
  | .error e => .error e
  | .ok edges =>
      if edges ≠ [] then
        .ok ((if truncate then [] else resolved) ++ edges)
      else
        .ok resolved

/-! ## Stage-2 fuzzy consolidation (src/consolidator.py:178-377) -/

/-- A golden entity document as read and written by
`consolidate_fuzzy_stage2`: `_key`, `entity_name`, `entity_type`
(nullable), `description`, `aliases`, and the two metadata fields the
merge writes. -/
structure GEntity where
  key : String
  entity_name : String
  entity_type : Option String
  description : String
  aliases : List String
  fuzzyMerged : Bool
  fuzzyMergedCount : Nat
  deriving DecidableEq, Repr

/-- The `_id` of a golden entity: collection name plus `_key`. -/
def geid (g : GEntity) : String :=
  COL_ENTITIES ++ "/" ++ g.key

/-- `LOWER(TRIM(e.entity_name))` (src/consolidator.py:207-208). -/
def normName (g : GEntity) : String :=
  (lowerChars (trimWs g.entity_name.data)).asString

/-- `token_overlap` of the fuzzy query (src/consolidator.py:215-219):
`LENGTH(INTERSECTION(tokens1, tokens2)) / MIN([LENGTH(tokens1), LENGTH(tokens2)])`,
0 when a token list is empty.  The `TOKENS(·, "text_en")` analyzer is
the external search collaborator's tokenizer, abstracted as `tok`;
AQL `INTERSECTION` returns the distinct common values. -/
def aqlTokenOverlap (tok : String → List String) (n1 n2 : String) : ℚ :=
  let tokens1 := tok n1
  let tokens2 := tok n2
  let interLen := ((dedupKeepFirst tokens1).filter (fun w => w ∈ tokens2)).length
  let minTokens := min tokens1.length tokens2.length
  if 0 < minTokens then (interLen : ℚ) / (minTokens : ℚ) else 0

/-- The blended confidence of the fuzzy query
(src/consolidator.py:221-229): for short names (min length ≤ 5) the
length-normalised Levenshtein score alone; for longer names
`0.6·lev_score + 0.4·token_overlap`. -/
def fuzzyConfidence (tok : String → List String) (n1 n2 : String) (d : Nat) : ℚ :=
  let nameLength := min n1.length n2.length
  let levScore : ℚ := 1 - (d : ℚ) / (max nameLength 1 : ℚ)
  if nameLength ≤ 5 then levScore
  else levScore * (6/10) + aqlTokenOverlap tok n1 n2 * (4/10)

/-- Lexicographic (code-point) string comparison, the order AQL's
`e1._key < e2._key` and Python's tuple comparison use. -/
def strLtb : List Char → List Char → Bool
  | _, [] => false
  | [], _ :: _ => true
  | a :: as, b :: bs => a < b || (a == b && strLtb as bs)

/-- The candidate-pair filter of the fuzzy query
(src/consolidator.py:201-237): ordered keys, same type, Levenshtein
distance in `(0, max_distance]`, confidence at least `min_confidence`,
and not (one normalized name a prefix of the other AND the *minimum*
name length below 4). -/
def fuzzyPairOk (tok : String → List String) (maxDist : Nat) (minConf : ℚ)
    (e1 e2 : GEntity) : Bool :=
  strLtb e1.key.data e2.key.data &&
  e1.entity_type == e2.entity_type &&
  (let n1 := normName e1
   let n2 := normName e2
   let d := lev n1.data n2.data
   decide (d ≤ maxDist) && decide (0 < d) &&
   decide (minConf ≤ fuzzyConfidence tok n1 n2 d) &&
   (let isPre := n2.data.isPrefixOf n1.data || n1.data.isPrefixOf n2.data
    let bothShort := decide (min n1.length n2.length < 4)
    !(isPre && bothShort)))

/-- Modelled from the spec's words, for comparison with `fuzzyPairOk`:
the §4.6 prefix rule reading "reject pairs where one name is a pure
prefix of the other and both are short (<4 characters)", i.e. *both*
name lengths below 4 rather than the code's minimum length. -/
def fuzzyPairOk_spec_bothShort (tok : String → List String) (maxDist : Nat) (minConf : ℚ)
    (e1 e2 : GEntity) : Bool :=
  strLtb e1.key.data e2.key.data &&
  e1.entity_type == e2.entity_type &&
  (let n1 := normName e1
   let n2 := normName e2
   let d := lev n1.data n2.data
   decide (d ≤ maxDist) && decide (0 < d) &&
   decide (minConf ≤ fuzzyConfidence tok n1 n2 d) &&
   (let isPre := n2.data.isPrefixOf n1.data || n1.data.isPrefixOf n2.data
    let bothShort := decide (n1.length < 4) && decide (n2.length < 4)
    !(isPre && bothShort)))

/-- The confidence of a candidate pair (for the final `SORT confidence
DESC` of the query). -/
def candConfidence (tok : String → List String) (p : GEntity × GEntity) : ℚ :=
  fuzzyConfidence tok (normName p.1) (normName p.2)
    (lev (normName p.1).data (normName p.2).data)

/-- The fuzzy-candidate list (src/consolidator.py:201-261): all ordered
pairs of store entities passing `fuzzyPairOk`, sorted by confidence
descending. -/
def fuzzy_candidates (tok : String → List String) (maxDist : Nat) (minConf : ℚ)
    (store : List GEntity) : List (GEntity × GEntity) :=
  stableSortBy (fun p q => decide (candConfidence tok q ≤ candConfidence tok p))
    (store.flatMap (fun a =>
      (store.filter (fun b => fuzzyPairOk tok maxDist minConf a b)).map (fun b => (a, b))))

/-- Union-find `find` without the mutation of path compression
(src/consolidator.py:273-279): follow the parent chain; an id with no
binding is its own root (the source's `if x not in parent:
parent[x] = x` materialises exactly that).  Path compression only
rewrites bindings to values `find` already returns, so the root
function is unchanged by it.  The fuel argument bounds the chain
length; `ufFind` supplies fuel one more than the number of bindings,
which the development proves sufficient for every parent map built by
`ufBuild`. -/
def ufFindAux : Nat → List (String × String) → String → String
  | 0, _, x => x
  | n + 1, p, x =>
      match p.lookup x with
      | none => x
      | some y => if y = x then x else ufFindAux n p y

/-- Root of `x` in parent map `p`. -/
def ufFind (p : List (String × String)) (x : String) : String :=
  ufFindAux (p.length + 1) p x

/-- Union-find `union` (src/consolidator.py:281-284):
`parent[find(x)] = find(y)` when the roots differ. -/
def ufUnion (p : List (String × String)) (x y : String) : List (String × String) :=
  let px := ufFind p x
  let py := ufFind p y
  if px = py then p else (px, py) :: p

/-- Build the union-find structure over all candidate pairs
(src/consolidator.py:286-288). -/
def ufBuild (pairs : List (String × String)) : List (String × String) :=
  pairs.foldl (fun p c => ufUnion p c.1 c.2) []

/-- The parent map built for a candidate list. -/
def ufOfCands (cands : List (GEntity × GEntity)) : List (String × String) :=
  ufBuild (cands.map (fun c => (geid c.1, geid c.2)))

/-- The merge-group roots, in first-appearance order (the insertion
order of the Python `merge_groups` dict, src/consolidator.py:290-294). -/
def mergeRoots (P : List (String × String)) (cands : List (GEntity × GEntity)) :
    List String :=
  dedupKeepFirst (cands.map (fun c => ufFind P (geid c.1)))

/-- The deduplicated member ids of the merge group keyed by `root`
(src/consolidator.py:290-297): both ids of every candidate pair whose
first entity has root `root`; `list(set(v))` modelled as first-occurrence
deduplication (the merge below is insensitive to this order up to the
alias list order). -/
def mergeGroupIds (P : List (String × String)) (cands : List (GEntity × GEntity))
    (root : String) : List String :=
  dedupKeepFirst ((cands.filter (fun c => ufFind P (geid c.1) = root)).flatMap
    (fun c => [geid c.1, geid c.2]))

/-- Python `max(entities, key=lambda e: (len(e['entity_name']),
e['entity_name']))` (src/consolidator.py:316): the first entity of
maximal (length, name). -/
def electPrimary : List GEntity → Option GEntity
  | [] => none
  | e :: es => some (es.foldl
      (fun acc f =>
        if acc.entity_name.length < f.entity_name.length ||
           (acc.entity_name.length == f.entity_name.length &&
            strLtb acc.entity_name.data f.entity_name.data)
        then f else acc) e)

/-- Merge one group (src/consolidator.py:303-374): fetch the live
entities of the group, elect the primary, fold the secondaries' aliases
and non-empty descriptions into it, update its metadata, and delete the
secondaries.  Returns the new store and the number of merged (deleted)
entities.  Groups of fewer than two ids are skipped
(src/consolidator.py:304-305).  An empty fetch would crash the Python
(`max([])`); it is modelled as a no-op — the partition property proved
below shows the ids of simultaneously processed groups are disjoint, so
the case is unreachable.  Re-pointing of `CONSOLIDATES` provenance
edges (src/consolidator.py:355-367) does not touch the golden-entity
store and is outside this model. -/
def mergeOneGroup (store : List GEntity) (ids : List String) : List GEntity × Nat :=
  if ids.length < 2 then (store, 0)
  else
    let entities := store.filter (fun g => geid g ∈ ids)
    match electPrimary entities with
    | none => (store, 0)
    | some primary =>
        let secondaries := entities.filter (fun g => geid g ≠ geid primary)
        let allAliases := primary.aliases ++
          secondaries.flatMap (fun s => s.aliases ++ [s.entity_name])
        let prunedAliases := dedupKeepFirst (allAliases.filter (fun a => a ≠ primary.entity_name))
        let allDescriptions := primary.description ::
          secondaries.filterMap (fun s => if s.description ≠ "" then some s.description else none)
        let combinedDescription :=
          String.intercalate " | " (allDescriptions.filter (fun d => d ≠ ""))
        let store1 := store.map (fun g =>
          if g.key = primary.key then
            { g with aliases := prunedAliases, description := combinedDescription,
                     fuzzyMerged := true, fuzzyMergedCount := secondaries.length }
          else g)
        (store1.filter (fun g => geid g ∉ secondaries.map geid), secondaries.length)

/-- `consolidate_fuzzy_stage2` (src/consolidator.py:178-377) on a
golden-entity store: compute the fuzzy candidates; with none, return
the store unchanged (the early `if dry_run or len(candidates) == 0`
return); otherwise group the candidate ids by union-find root and merge
each group in root order.  Returns the new store and the total merged
count. -/
def consolidate_fuzzy_stage2 (tok : String → List String) (maxDist : Nat) (minConf : ℚ)
    (store : List GEntity) : List GEntity × Nat :=
  let cands := fuzzy_candidates tok maxDist minConf store
  if cands = [] then (store, 0)
  else
    let P := ufOfCands cands
    (mergeRoots P cands).foldl
      (fun acc r =>
        let p := mergeOneGroup acc.1 (mergeGroupIds P cands r)
        (p.1, acc.2 + p.2))
      (store, 0)


/-- The store component of the merge fold of `consolidate_fuzzy_stage2`:
merging the groups of the given roots in order, threading the store. -/
def mergeStores (gIds : String → List String) (roots : List String)
    (st : List GEntity) : List GEntity :=
  roots.foldl (fun s r => (mergeOneGroup s (gIds r)).1) st

/-- Invariant of the parent maps built by `ufBuild`: every root is
unbound (chains end at an unbound id), which makes the default fuel of
`ufFind` sufficient. -/
def UFInv (p : List (String × String)) : Prop :=
  ∀ z, p.lookup (ufFind p z) = none

/-! ## Theorems

First a stock of helper lemmas about the string utilities, then one
theorem (plus witness / counterexample where required) per claim. -/

theorem char_ofNat_toNat_of_le (n : Nat) (h : n < 55296) : (Char.ofNat n).toNat = n := by
  have hv : n.isValidChar := Or.inl h
  simp only [Char.ofNat, hv, dif_pos]
  rfl

theorem lowerChar_idem (c : Char) : lowerChar (lowerChar c) = lowerChar c := by
  unfold lowerChar
  by_cases h : 65 ≤ c.toNat ∧ c.toNat ≤ 90
  · rw [if_pos h]
    have ht : (Char.ofNat (c.toNat + 32)).toNat = c.toNat + 32 :=
      char_ofNat_toNat_of_le _ (by omega)
    rw [if_neg (by rw [ht]; omega)]
  · rw [if_neg h, if_neg h]

theorem mem_trimWs {c : Char} {l : List Char} (h : c ∈ trimWs l) : c ∈ l := by
  unfold trimWs at h
  rw [List.mem_reverse] at h
  have h1 := (List.dropWhile_sublist (l := (l.dropWhile isWsChar).reverse)
    (p := isWsChar)).mem h
  rw [List.mem_reverse] at h1
  exact (List.dropWhile_sublist (l := l) (p := isWsChar)).mem h1

theorem dropWhile_idem (p : Char → Bool) (l : List Char) :
    (l.dropWhile p).dropWhile p = l.dropWhile p := by
  induction l with
  | nil => simp
  | cons c cs ih =>
    by_cases h : p c
    · simpa [List.dropWhile, h] using ih
    · simp [List.dropWhile, h]

theorem head?_dropWhile (p : Char → Bool) (l : List Char) :
    (List.dropWhile p l).head?.all (fun c => !p c) := by
  induction l with
  | nil => simp
  | cons c cs ih =>
    by_cases h : p c
    · simpa [List.dropWhile, h] using ih
    · simp [List.dropWhile, h]

theorem dropWhile_eq_self_of_head? {p : Char → Bool} {l : List Char}
    (h : l.head?.all (fun c => !p c)) : l.dropWhile p = l := by
  cases l with
  | nil => simp
  | cons c cs =>
    simp only [List.head?_cons, Option.all_some] at h
    have hc : p c = false := by simpa using h
    simp [List.dropWhile, hc]

theorem trimWs_eq_self {l : List Char} (h1 : l.dropWhile isWsChar = l)
    (h2 : l.reverse.dropWhile isWsChar = l.reverse) : trimWs l = l := by
  unfold trimWs
  rw [h1, h2, List.reverse_reverse]

theorem trimWs_idem (l : List Char) : trimWs (trimWs l) = trimWs l := by
  apply trimWs_eq_self
  · apply dropWhile_eq_self_of_head?
    unfold trimWs
    rw [List.head?_reverse]
    cases hbe : (l.dropWhile isWsChar).reverse.dropWhile isWsChar with
    | nil => simp
    | cons x xs =>
      obtain ⟨k, hk⟩ := List.dropWhile_suffix
        (l := (l.dropWhile isWsChar).reverse) isWsChar
      rw [hbe] at hk
      have hg : ((l.dropWhile isWsChar).reverse).getLast? = (x :: xs).getLast? := by
        rw [← hk, List.getLast?_append]
        cases hx : (x :: xs).getLast? with
        | none => exact absurd (List.getLast?_eq_none_iff.mp hx) (by simp)
        | some y => simp [hx]
      rw [← hg, List.getLast?_reverse]
      exact head?_dropWhile isWsChar l
  · unfold trimWs
    rw [List.reverse_reverse]
    exact dropWhile_idem _ _

theorem mem_lastDotSegment {c : Char} {l : List Char} (h : c ∈ lastDotSegment l) :
    c ∈ l ∧ c ≠ '.' := by
  unfold lastDotSegment at h
  rw [List.mem_reverse] at h
  refine ⟨?_, by simpa using List.mem_takeWhile_imp h⟩
  have := (List.takeWhile_sublist (l := l.reverse) (p := fun c => c ≠ '.')).mem h
  rwa [List.mem_reverse] at this

theorem mem_normStep1 {c : Char} {l : List Char} (h : c ∈ normStep1 l) :
    lowerChar c = c := by
  unfold normStep1 at h
  have hmem : c ∈ lowerChars l := by
    by_cases hp : ("or1200_".data.isPrefixOf (lowerChars l))
    · rw [if_pos hp] at h
      exact (List.drop_sublist 7 (lowerChars l)).mem h
    · rwa [if_neg hp] at h
  unfold lowerChars at hmem
  rw [List.mem_map] at hmem
  obtain ⟨e, _, he⟩ := hmem
  rw [← he]
  exact lowerChar_idem e

theorem mem_normStep2 {c : Char} {l : List Char} (h : c ∈ normStep2 l) :
    lowerChar c = c ∧ c ≠ '.' := by
  unfold normStep2 at h
  by_cases hdot : ((normStep1 l).contains '.')
  · rw [if_pos hdot] at h
    obtain ⟨hm, hne⟩ := mem_lastDotSegment h
    exact ⟨mem_normStep1 hm, hne⟩
  · rw [if_neg hdot] at h
    refine ⟨mem_normStep1 h, ?_⟩
    intro hcc
    apply hdot
    rw [List.contains_iff_exists_mem_beq]
    exact ⟨c, h, by simp [hcc]⟩

theorem normChars_props {c : Char} {l : List Char} (h : c ∈ normChars l) :
    lowerChar c = c ∧ c ≠ '.' ∧ c ≠ '_' := by
  unfold normChars at h
  have h1 := mem_trimWs h
  rw [List.mem_map] at h1
  obtain ⟨d, hd, hdc⟩ := h1
  obtain ⟨hlow, hne⟩ := mem_normStep2 hd
  by_cases hu : d = '_'
  · rw [← hdc, if_pos hu]
    exact ⟨by decide, by decide, by decide⟩
  · rw [← hdc, if_neg hu]
    exact ⟨hlow, hne, hu⟩

theorem map_eq_self_of_mem {f : Char → Char} {l : List Char}
    (h : ∀ c ∈ l, f c = c) : l.map f = l := by
  have := List.map_congr_left (g := id) h
  simpa using this

theorem normChars_idem (l : List Char) : normChars (normChars l) = normChars l := by
  have hprops := fun c (hc : c ∈ normChars l) => normChars_props hc
  have hlow : lowerChars (normChars l) = normChars l :=
    map_eq_self_of_mem (fun c hc => (hprops c hc).1)
  have hs1 : normStep1 (normChars l) = normChars l := by
    unfold normStep1
    rw [hlow, if_neg]
    intro hx
    have hsub := List.isPrefixOf_iff_prefix.mp hx
    have : '_' ∈ normChars l := hsub.sublist.mem (by decide)
    exact (hprops _ this).2.2 rfl
  have hs2 : normStep2 (normChars l) = normChars l := by
    unfold normStep2
    rw [hs1, if_neg]
    intro hx
    rw [List.contains_iff_exists_mem_beq] at hx
    obtain ⟨c, hc, hcc⟩ := hx
    rw [beq_iff_eq] at hcc
    exact (hprops c hc).2.1 hcc.symm
  conv_lhs => rw [normChars, hs2]
  rw [map_eq_self_of_mem (fun c hc => by simp [if_neg (hprops c hc).2.2])]
  conv_lhs => rw [normChars]
  exact trimWs_idem _

theorem asString_data (l : List Char) : (List.asString l).data = l := by
  simp [List.asString]

/-- Claim C7: `normalize_hardware_name` is idempotent, the
case-insensitivity instance `normalize("ALU_Result") =
normalize("alu result")` holds, and empty or `None` input yields the
empty string (the model is a total function — no exception can be
raised). -/
theorem C7_normalizer_idempotent_case_insensitive :
    (∀ s : String, normalize_hardware_name (normalize_hardware_name s) =
        normalize_hardware_name s)
    ∧ normalize_hardware_name "ALU_Result" = normalize_hardware_name "alu result"
    ∧ normalize_hardware_name_opt none = ""
    ∧ normalize_hardware_name "" = "" := by
  refine ⟨?_, by decide, rfl, rfl⟩
  intro s
  unfold normalize_hardware_name
  by_cases hs : s = ""
  · simp [hs]
  · rw [if_neg hs]
    by_cases hy : (normChars s.data).asString = ""
    · rw [if_pos hy]
      exact hy.symm
    · rw [if_neg hy, asString_data, normChars_idem]

theorem mem_insLe {α : Type} (le : α → α → Bool) (x a : α) (l : List α) :
    a ∈ insLe le x l ↔ a = x ∨ a ∈ l := by
  induction l with
  | nil => simp [insLe]
  | cons y ys ih =>
    by_cases h : le x y
    · simp [insLe, h]
    · simp only [insLe, h, Bool.false_eq_true, if_false, List.mem_cons, ih]
      tauto

theorem mem_stableSortBy {α : Type} (le : α → α → Bool) (a : α) (l : List α) :
    a ∈ stableSortBy le l ↔ a ∈ l := by
  induction l with
  | nil => simp [stableSortBy]
  | cons y ys ih =>
    simp only [stableSortBy, List.foldr_cons, List.mem_cons]
    rw [show ys.foldr (insLe le) [] = stableSortBy le ys from rfl] at *
    rw [mem_insLe, ih]

theorem length_insLe {α : Type} (le : α → α → Bool) (x : α) (l : List α) :
    (insLe le x l).length = l.length + 1 := by
  induction l with
  | nil => simp [insLe]
  | cons y ys ih =>
    by_cases h : le x y
    · simp [insLe, h]
    · simp [insLe, h, ih]

theorem length_stableSortBy {α : Type} (le : α → α → Bool) (l : List α) :
    (stableSortBy le l).length = l.length := by
  induction l with
  | nil => simp [stableSortBy]
  | cons y ys ih =>
    simp only [stableSortBy, List.foldr_cons, List.length_cons]
    rw [show ys.foldr (insLe le) [] = stableSortBy le ys from rfl, length_insLe, ih]

theorem mem_retrieveCandidates {db : SearchDb} {item : Item}
    {compat : List (Option String)} {c : Entity}
    (h : c ∈ retrieveCandidates db item compat) :
    c ∈ db.entities ∧ db.srch item c = true ∧ c.entity_type ∈ compat := by
  unfold retrieveCandidates at h
  have h1 := (List.take_sublist 10 _).mem h
  rw [mem_stableSortBy, List.mem_filter] at h1
  refine ⟨h1.1, ?_, ?_⟩
  · have := h1.2
    simp only [Bool.and_eq_true] at this
    exact this.1
  · have := h1.2
    simp only [Bool.and_eq_true, decide_eq_true_eq] at this
    exact this.2

/-- Membership characterisation of the interactive post-retrieval
scoring: every emitted edge comes from one retrieved candidate, with
exactly the pipeline's final score, and only above the threshold. -/
theorem mem_processItemCore {sim : String × String → String × String → ℚ}
    {searchTerms : List String} {bn sd ctx : String} {related : List String}
    {threshold : ℚ} {method itemId : String} {cands : List Entity} {e : REdge}
    (he : e ∈ processItemCore sim searchTerms bn sd ctx related threshold method itemId cands) :
    ∃ c ∈ cands,
      e = { src := itemId, dst := c.id,
            score := finalScoreOf related c.id (scoreBeforeGraph sim searchTerms bn sd ctx c),
            method := method,
            graph_aware := !related.isEmpty && related.contains c.id } ∧
      threshold < e.score := by
  unfold processItemCore at he
  have h1 := (List.take_sublist 1 _).mem he
  rw [mem_stableSortBy] at h1
  rw [List.mem_filterMap] at h1
  obtain ⟨c, hc, hce⟩ := h1
  by_cases ht : threshold <
      finalScoreOf related c.id (scoreBeforeGraph sim searchTerms bn sd ctx c)
  · rw [if_pos ht] at hce
    obtain rfl := Option.some.inj hce
    exact ⟨c, hc, rfl, ht⟩
  · rw [if_neg ht] at hce
    exact absurd hce (by simp)

theorem length_processItemCore (sim : String × String → String × String → ℚ)
    (searchTerms : List String) (bn sd ctx : String) (related : List String)
    (threshold : ℚ) (method itemId : String) (cands : List Entity) :
    (processItemCore sim searchTerms bn sd ctx related threshold method itemId cands).length
      ≤ 1 := by
  unfold processItemCore
  exact (List.length_take_le 1 _).trans (le_refl 1)

/-- Every `ok` result of `process_item_to_entity` is a list of edges
obtained from `processItemCore` on the retrieved (hence type-filtered)
candidates — or the empty list from one of the guards. -/
theorem process_item_to_entity_ok {db : SearchDb}
    {sim : String × String → String × String → ℚ} {item : Item} {threshold : ℚ}
    {method contextSummary : String} {parentIds : Option (List String)} {es : List REdge}
    (hok : process_item_to_entity db sim item threshold method contextSummary parentIds
      = .ok es) :
    es = [] ∨
    ∃ searchTerms bn sd related,
      es = processItemCore sim searchTerms bn sd contextSummary related threshold method
        item.id
        (retrieveCandidates db item
          (TYPE_COMPATIBILITY ((item.id.data.takeWhile (fun c => c ≠ '/')).asString))) := by
  unfold process_item_to_entity at hok
  by_cases h1 : (if item.label ≠ "" then item.label else item.name) = ""
  · rw [if_pos h1] at hok
    exact Or.inl (Except.ok.inj hok).symm
  · rw [if_neg h1] at hok
    by_cases h2 : normalize_hardware_name (if item.label ≠ "" then item.label else item.name)
        = "" ∨ (normalize_hardware_name (if item.label ≠ "" then item.label else item.name)).length < 2
    · rw [if_pos h2] at hok
      exact Or.inl (Except.ok.inj hok).symm
    · rw [if_neg h2] at hok
      by_cases h3 : db.queryFails item
      · rw [if_pos h3] at hok
        exact absurd hok (by simp)
      · rw [if_neg h3] at hok
        refine Or.inr ⟨_, _, _, _, (Except.ok.inj hok).symm⟩

/-- Claim C5: a candidate entity whose type is outside the static
compatibility set for the element's collection is never bridged — every
edge the interactive path emits points at a retrieved entity whose type
passed the `entity_type IN @compatible_types` pre-filter
(src/bridger.py:317), whatever the external relevance engine matched
(name-identical candidates included). -/
theorem C5_type_compatibility_never_bridged (db : SearchDb)
    (sim : String × String → String × String → ℚ) (item : Item) (threshold : ℚ)
    (method contextSummary : String) (parentIds : Option (List String)) (es : List REdge)
    (hok : process_item_to_entity db sim item threshold method contextSummary parentIds
      = .ok es)
    (e : REdge) (he : e ∈ es) :
    ∃ ent ∈ db.entities, ent.id = e.dst ∧
      ent.entity_type ∈
        TYPE_COMPATIBILITY ((item.id.data.takeWhile (fun c => c ≠ '/')).asString) := by
  rcases process_item_to_entity_ok hok with h | ⟨ts, bn, sd, related, hes⟩
  · subst h
    exact absurd he (by simp)
  · subst hes
    obtain ⟨c, hc, hee, _⟩ := mem_processItemCore he
    obtain ⟨hcm, _, hct⟩ := mem_retrieveCandidates hc
    exact ⟨c, hcm, by rw [hee], hct⟩

/-- Witness for C5: a concrete run emitting an edge; the theorem
applied at it yields a compatible-typed target. -/
theorem C5_type_compatibility_never_bridged_witness :
    ∃ ent ∈ ({ entities := [⟨"OR1200_Golden_Entities/E1", "alu_x", "", some "processor_component"⟩],
               srch := fun _ _ => true, rankOf := fun _ _ => 0,
               queryFails := fun _ => false, trav := fun _ => .ok [] } : SearchDb).entities,
      ent.id = "OR1200_Golden_Entities/E1" ∧
      ent.entity_type ∈
        TYPE_COMPATIBILITY ((("RTL_Module/alu_x" : String).data.takeWhile
          (fun c => c ≠ '/')).asString) := by
  have h := C5_type_compatibility_never_bridged
    { entities := [⟨"OR1200_Golden_Entities/E1", "alu_x", "", some "processor_component"⟩],
      srch := fun _ _ => true, rankOf := fun _ _ => 0,
      queryFails := fun _ => false, trav := fun _ => .ok [] }
    (fun _ _ => 3/10)
    ⟨"RTL_Module/alu_x", "alu_x", "alu_x", "", "", "", "", "", ""⟩
    (7/10) "m" "" none
    [⟨"RTL_Module/alu_x", "OR1200_Golden_Entities/E1", 19/20, "m", false⟩]
    (by decide)
    ⟨"RTL_Module/alu_x", "OR1200_Golden_Entities/E1", 19/20, "m", false⟩
    (by decide)
  obtain ⟨ent, hm, hid, hty⟩ := h
  exact ⟨ent, hm, by rw [hid], hty⟩

theorem mem_dedupAux {α : Type} [DecidableEq α] :
    ∀ (n : Nat) (l : List α), l.length ≤ n → ∀ a, (a ∈ dedupAux n l ↔ a ∈ l)
  | 0, [], _, a => by simp [dedupAux]
  | 0, x :: xs, h, a => by simp at h
  | n + 1, [], _, a => by simp [dedupAux]
  | n + 1, x :: xs, h, a => by
    have hlen : (xs.filter (fun y => y ≠ x)).length ≤ n := by
      have := List.length_filter_le (fun y => decide (y ≠ x)) xs
      simp only [List.length_cons, Nat.add_le_add_iff_right] at h
      omega
    have ih := mem_dedupAux n (xs.filter (fun y => y ≠ x)) hlen a
    simp only [dedupAux, List.mem_cons, ih, List.mem_filter,
      decide_eq_true_eq]
    by_cases hax : a = x
    · simp [hax]
    · simp [hax]

theorem nodup_dedupAux {α : Type} [DecidableEq α] :
    ∀ (n : Nat) (l : List α), l.length ≤ n → (dedupAux n l).Nodup
  | 0, [], _ => by simp [dedupAux]
  | 0, x :: xs, h => by simp at h
  | n + 1, [], _ => by simp [dedupAux]
  | n + 1, x :: xs, h => by
    have hlen : (xs.filter (fun y => y ≠ x)).length ≤ n := by
      have := List.length_filter_le (fun y => decide (y ≠ x)) xs
      simp only [List.length_cons, Nat.add_le_add_iff_right] at h
      omega
    have ih := nodup_dedupAux n (xs.filter (fun y => y ≠ x)) hlen
    simp only [dedupAux, List.nodup_cons]
    refine ⟨?_, ih⟩
    intro hmem
    rw [mem_dedupAux _ _ hlen] at hmem
    rw [List.mem_filter] at hmem
    simp at hmem

theorem mem_dedupKeepFirst {α : Type} [DecidableEq α] (l : List α) (a : α) :
    a ∈ dedupKeepFirst l ↔ a ∈ l :=
  mem_dedupAux l.length l (le_refl _) a

theorem nodup_dedupKeepFirst {α : Type} [DecidableEq α] (l : List α) :
    (dedupKeepFirst l).Nodup :=
  nodup_dedupAux l.length l (le_refl _)

theorem overlapTokens_nodup (t : String) : (overlapTokens t).Nodup :=
  List.Nodup.filter _ (nodup_dedupKeepFirst _)

theorem calculate_token_overlap_bounds (t1 t2 : String) :
    0 ≤ calculate_token_overlap t1 t2 ∧ calculate_token_overlap t1 t2 ≤ 1 := by
  unfold calculate_token_overlap
  split_ifs with h0 h1 h2
  · norm_num
  · norm_num
  · have hinter1 : ((overlapTokens t1).filter (fun w => w ∈ overlapTokens t2)).length
        ≤ (overlapTokens t1).length := List.length_filter_le _ _
    have hinter2 : ((overlapTokens t1).filter (fun w => w ∈ overlapTokens t2)).length
        ≤ (overlapTokens t2).length := by
      refine List.Subperm.length_le (List.subperm_of_subset ?_ ?_)
      · exact List.Nodup.filter _ (overlapTokens_nodup t1)
      · intro a ha
        rw [List.mem_filter] at ha
        simpa using ha.2
    constructor
    · positivity
    · rw [div_le_one (by exact_mod_cast h2)]
      exact_mod_cast le_min hinter1 hinter2
  · norm_num

theorem scoreBeforeGraph_bounds {sim : String × String → String × String → ℚ}
    (hsim : ∀ d1 d2, 0 ≤ sim d1 d2 ∧ sim d1 d2 ≤ 1)
    (searchTerms : List String) (bn sd ctx : String) (cand : Entity) :
    0 ≤ scoreBeforeGraph sim searchTerms bn sd ctx cand ∧
    scoreBeforeGraph sim searchTerms bn sd ctx cand ≤ 1 := by
  obtain ⟨ha0, ha1⟩ := hsim (bn, sd) (normalize_hardware_name cand.entity_name,
    cand.description)
  obtain ⟨hb0, hb1⟩ := hsim (bn, sd) (normalize_hardware_name cand.entity_name,
    normalize_hardware_name cand.entity_name)
  obtain ⟨hov0, hov1⟩ := calculate_token_overlap_bounds ctx cand.description
  have m1a := max_le ha1 (show ((95:ℚ)/100) ≤ 1 by norm_num)
  have m1b := max_le hb1 (show ((95:ℚ)/100) ≤ 1 by norm_num)
  have m2a := max_le ha1 (show ((85:ℚ)/100) ≤ 1 by norm_num)
  have m2b := max_le hb1 (show ((85:ℚ)/100) ≤ 1 by norm_num)
  have m3a := max_le ha1 (show ((80:ℚ)/100) ≤ 1 by norm_num)
  have m3b := max_le hb1 (show ((80:ℚ)/100) ≤ 1 by norm_num)
  have n1a := (show ((0:ℚ) ≤ 95/100) by norm_num).trans
    (le_max_right (sim (bn, sd) (normalize_hardware_name cand.entity_name,
      cand.description)) _)
  have n1b := (show ((0:ℚ) ≤ 95/100) by norm_num).trans
    (le_max_right (sim (bn, sd) (normalize_hardware_name cand.entity_name,
      normalize_hardware_name cand.entity_name)) _)
  have n2a := (show ((0:ℚ) ≤ 85/100) by norm_num).trans
    (le_max_right (sim (bn, sd) (normalize_hardware_name cand.entity_name,
      cand.description)) _)
  have n2b := (show ((0:ℚ) ≤ 85/100) by norm_num).trans
    (le_max_right (sim (bn, sd) (normalize_hardware_name cand.entity_name,
      normalize_hardware_name cand.entity_name)) _)
  have n3a := (show ((0:ℚ) ≤ 80/100) by norm_num).trans
    (le_max_right (sim (bn, sd) (normalize_hardware_name cand.entity_name,
      cand.description)) _)
  have n3b := (show ((0:ℚ) ≤ 80/100) by norm_num).trans
    (le_max_right (sim (bn, sd) (normalize_hardware_name cand.entity_name,
      normalize_hardware_name cand.entity_name)) _)
  unfold scoreBeforeGraph
  dsimp only
  split_ifs <;> constructor <;>
    linarith

theorem finalScoreOf_bounds {related : List String} {candId : String} {s : ℚ}
    (h0 : 0 ≤ s) (h1 : s ≤ 1) :
    0 ≤ finalScoreOf related candId s ∧ finalScoreOf related candId s ≤ 1 := by
  unfold finalScoreOf
  split_ifs <;> constructor
  · exact le_min (by norm_num) (by positivity)
  · exact min_le_left _ _
  · positivity
  · nlinarith
  · exact h0
  · exact h1

/-- Claim C10: assuming the external multi-field similarity lies in
[0, 1], every edge the interactive path emits has a score strictly
above the stage threshold, and the lexical boost, context blending and
capped graph boost keep it within [0, 1]. -/
theorem C10_emitted_scores_bounded (db : SearchDb)
    (sim : String × String → String × String → ℚ) (item : Item) (threshold : ℚ)
    (method contextSummary : String) (parentIds : Option (List String)) (es : List REdge)
    (e : REdge)
    (hsim : ∀ d1 d2, 0 ≤ sim d1 d2 ∧ sim d1 d2 ≤ 1)
    (hok : process_item_to_entity db sim item threshold method contextSummary parentIds
      = .ok es)
    (he : e ∈ es) :
    threshold < e.score ∧ 0 ≤ e.score ∧ e.score ≤ 1 := by
  rcases process_item_to_entity_ok hok with h | ⟨ts, bn, sd, related, hes⟩
  · subst h
    exact absurd he (by simp)
  · subst hes
    obtain ⟨c, _, hee, ht⟩ := mem_processItemCore he
    refine ⟨ht, ?_⟩
    obtain ⟨h0, h1⟩ := scoreBeforeGraph_bounds hsim ts bn sd contextSummary c
    have : 0 ≤ finalScoreOf related c.id (scoreBeforeGraph sim ts bn sd contextSummary c) ∧
        finalScoreOf related c.id (scoreBeforeGraph sim ts bn sd contextSummary c) ≤ 1 :=
      finalScoreOf_bounds h0 h1
    rw [hee]
    exact this

/-- Witness for C10: a concrete run at threshold 0.7 emitting the edge
with score 0.95. -/
theorem C10_emitted_scores_bounded_witness :
    (7:ℚ)/10 < (19:ℚ)/20 ∧ 0 ≤ (19:ℚ)/20 ∧ (19:ℚ)/20 ≤ 1 := by
  have h := C10_emitted_scores_bounded
    { entities := [⟨"OR1200_Golden_Entities/E1", "alu_x", "", some "processor_component"⟩],
      srch := fun _ _ => true, rankOf := fun _ _ => 0,
      queryFails := fun _ => false, trav := fun _ => .ok [] }
    (fun _ _ => 3/10)
    ⟨"RTL_Module/alu_x", "alu_x", "alu_x", "", "", "", "", "", ""⟩
    (7/10) "m" "" none
    [⟨"RTL_Module/alu_x", "OR1200_Golden_Entities/E1", 19/20, "m", false⟩]
    ⟨"RTL_Module/alu_x", "OR1200_Golden_Entities/E1", 19/20, "m", false⟩
    (fun _ _ => by norm_num)
    (by decide)
    (by decide)
  exact h

/-- Counterexample for claim C4: a candidate inside a non-empty
neighborhood whose combined (pre-boost) score is 0.95 is emitted by the
interactive path with final score `min 1 (0.95 · 1.20) = 1`, not the
claim's `0.95 · 1.20 = 1.14` — the code caps the boosted score at 1.0
(src/bridger.py:387). -/
theorem C4_graph_boost_counterexample :
    process_item_to_entity
      { entities := [⟨"OR1200_Golden_Entities/G2", "px", "", some "register"⟩],
        srch := fun _ _ => true, rankOf := fun _ _ => 0,
        queryFails := fun _ => false,
        trav := fun _ => .ok ["OR1200_Golden_Entities/G2"] }
      (fun _ _ => 3/10)
      ⟨"RTL_Port/m.px", "m.px", "px", "", "", "", "", "", ""⟩
      (3/5) "m" "" (some ["OR1200_Golden_Entities/G1"])
      = .ok [⟨"RTL_Port/m.px", "OR1200_Golden_Entities/G2", 1, "m", true⟩]
    ∧ scoreBeforeGraph (fun _ _ => 3/10) ["px"] "px" "px" ""
        ⟨"OR1200_Golden_Entities/G2", "px", "", some "register"⟩ = 19/20
    ∧ (1 : ℚ) ≠ (19/20) * (6/5) := by
  refine ⟨by decide, by decide, by decide⟩

/-- Claim C4 (amended): with a non-empty neighborhood, a candidate
inside it is emitted with score `min 1 (combined · 1.20)` and
`graph_aware = true`; a candidate outside it is emitted with score
`combined · 0.95` and `graph_aware = false`; with no context the
combined score is unchanged and `graph_aware = false`. -/
theorem C4_graph_boost_amended (sim : String × String → String × String → ℚ)
    (searchTerms : List String) (bn sd ctx : String) (related : List String)
    (threshold : ℚ) (method itemId : String) (cands : List Entity) (e : REdge)
    (he : e ∈ processItemCore sim searchTerms bn sd ctx related threshold method itemId cands) :
    ∃ c ∈ cands, e.dst = c.id ∧
      ((related ≠ [] ∧ c.id ∈ related) →
          e.score = min 1 (scoreBeforeGraph sim searchTerms bn sd ctx c * (6/5)) ∧
          e.graph_aware = true) ∧
      ((related ≠ [] ∧ c.id ∉ related) →
          e.score = scoreBeforeGraph sim searchTerms bn sd ctx c * (19/20) ∧
          e.graph_aware = false) ∧
      (related = [] →
          e.score = scoreBeforeGraph sim searchTerms bn sd ctx c ∧
          e.graph_aware = false) := by
  obtain ⟨c, hc, hee, _⟩ := mem_processItemCore he
  refine ⟨c, hc, by rw [hee], ?_, ?_, ?_⟩
  · rintro ⟨hne, hmem⟩
    constructor
    · rw [hee]
      simp only [finalScoreOf, if_pos (And.intro hne hmem)]
    · rw [hee]
      simp [List.isEmpty_iff, hne, hmem]
  · rintro ⟨hne, hmem⟩
    constructor
    · rw [hee]
      simp only [finalScoreOf]
      rw [if_neg (by tauto), if_pos hne]
    · rw [hee]
      simp only [Bool.and_eq_false_iff]
      right
      simpa using hmem
  · intro hnil
    constructor
    · rw [hee]
      simp only [finalScoreOf]
      rw [if_neg (by tauto), if_neg (by tauto)]
    · rw [hee]
      simp [hnil]

/-- Witness for the amended C4: the interactive scoring core at a
concrete candidate inside a concrete neighborhood. -/
theorem C4_graph_boost_amended_witness :
    ∃ c ∈ [(⟨"OR1200_Golden_Entities/G2", "px", "", some "register"⟩ : Entity)],
      ("OR1200_Golden_Entities/G2" : String) = c.id ∧
      ((["OR1200_Golden_Entities/G2"] ≠ ([] : List String) ∧
          c.id ∈ ["OR1200_Golden_Entities/G2"]) →
        (1 : ℚ) = min 1 (scoreBeforeGraph (fun _ _ => 3/10) ["px"] "px" "px" "" c * (6/5)) ∧
        true = true) ∧
      ((["OR1200_Golden_Entities/G2"] ≠ ([] : List String) ∧
          c.id ∉ ["OR1200_Golden_Entities/G2"]) →
        (1 : ℚ) = scoreBeforeGraph (fun _ _ => 3/10) ["px"] "px" "px" "" c * (19/20) ∧
        true = false) ∧
      ((["OR1200_Golden_Entities/G2"] : List String) = [] →
        (1 : ℚ) = scoreBeforeGraph (fun _ _ => 3/10) ["px"] "px" "px" "" c ∧
        true = false) := by
  have h := C4_graph_boost_amended (fun _ _ => 3/10) ["px"] "px" "px" ""
    ["OR1200_Golden_Entities/G2"] (3/5) "m" "RTL_Port/m.px"
    [⟨"OR1200_Golden_Entities/G2", "px", "", some "register"⟩]
    ⟨"RTL_Port/m.px", "OR1200_Golden_Entities/G2", 1, "m", true⟩
    (by decide)
  exact h

theorem bulk_process_item_top1 {db : SearchDb} {resolved : List REdge} {colName : String}
    {threshold : ℚ} {method : String} {item : Item} {es : List REdge}
    (hok : bulk_process_item db resolved colName threshold method item = .ok es) :
    es.length ≤ 1 ∧ ∀ e ∈ es, threshold < e.score := by
  unfold bulk_process_item at hok
  dsimp only at hok
  by_cases h1 : (if isArchCollection colName then item.name else item.label).length < 2
  · rw [if_pos h1] at hok
    have hes : es = [] := (Except.ok.inj hok).symm
    subst hes
    simp
  · rw [if_neg h1] at hok
    cases hre : bulkRelated db resolved colName item with
    | error err =>
      rw [hre] at hok
      exact absurd hok (by simp)
    | ok related =>
      rw [hre] at hok
      dsimp only at hok
      have hes := Except.ok.inj hok
      constructor
      · rw [← hes]
        exact List.length_take_le 1 _
      · intro e he
        rw [← hes] at he
        have h2 := (List.take_sublist 1 _).mem he
        rw [mem_stableSortBy, List.mem_filterMap] at h2
        obtain ⟨c, _, hce⟩ := h2
        by_cases ht : threshold < bulkScoreWithLexical
            (bulkNormStr (if isArchCollection colName then item.name else item.label)) c *
            bulkGraphBoost related c.id
        · rw [if_pos ht] at hce
          obtain rfl := Option.some.inj hce
          exact ht
        · rw [if_neg ht] at hce
          exact absurd hce (by simp)

/-- Counterexample for claim C1: on the same store, the same element
and the same threshold — even granting both paths the identical
external relevance matcher and ranking — the interactive path and the
bulk path emit edges with different scores for the same target entity
(0.95 from the interactive lexical boost over the abstract similarity
0.3, versus 1.0 from the bulk path's Levenshtein-ratio base score on
identical normalized names).  The two execution paths are not
semantically identical. -/
theorem C1_bulk_vs_interactive_counterexample :
    process_item_to_entity
      ⟨[⟨"OR1200_Golden_Entities/E1", "alu_x", "", some "processor_component"⟩],
        fun _ _ => true, fun _ _ => 0, fun _ => false, fun _ => .ok []⟩
      (fun _ _ => 3/10)
      ⟨"RTL_Module/alu_x", "alu_x", "alu_x", "", "", "", "", "", ""⟩
      (7/10) "m" "" none
      = .ok [⟨"RTL_Module/alu_x", "OR1200_Golden_Entities/E1", 19/20, "m", false⟩]
    ∧ bulk_process_item
      ⟨[⟨"OR1200_Golden_Entities/E1", "alu_x", "", some "processor_component"⟩],
        fun _ _ => true, fun _ _ => 0, fun _ => false, fun _ => .ok []⟩
      [] COL_MODULE (7/10) "m"
      ⟨"RTL_Module/alu_x", "alu_x", "alu_x", "", "", "", "", "", ""⟩
      = .ok [⟨"RTL_Module/alu_x", "OR1200_Golden_Entities/E1", 1, "m", false⟩]
    ∧ ((19:ℚ)/20) ≠ 1 :=
  ⟨by decide, by decide, by decide⟩

/-- Claim C1 (amended): the two paths share the selection structure —
each emits at most one edge per element and only with a score strictly
above the threshold, with the same 1.20 / 0.95 / 1.0 graph-boost factor
selection — but they are not semantically identical: the bulk path
scores with an approximate Levenshtein ratio under its own
normalization, has no token-subset lexical boost, no context blending
and no 1.0 cap, so the same element and store can yield edges with
different scores. -/
theorem C1_amended_shared_top1_selection (db : SearchDb)
    (sim : String × String → String × String → ℚ) (item : Item) (threshold : ℚ)
    (method ctx : String) (pids : Option (List String)) (resolved : List REdge)
    (colName : String) (es1 es2 : List REdge) (e1 e2 : REdge)
    (h1 : process_item_to_entity db sim item threshold method ctx pids = .ok es1)
    (h2 : bulk_process_item db resolved colName threshold method item = .ok es2) :
    es1.length ≤ 1 ∧ es2.length ≤ 1 ∧
    (e1 ∈ es1 → threshold < e1.score) ∧ (e2 ∈ es2 → threshold < e2.score) := by
  obtain ⟨hl2, hs2⟩ := bulk_process_item_top1 h2
  refine ⟨?_, hl2, ?_, fun he => hs2 e2 he⟩
  · rcases process_item_to_entity_ok h1 with h | ⟨ts, bn, sd, rel, hes⟩
    · subst h
      simp
    · subst hes
      exact length_processItemCore _ _ _ _ _ _ _ _ _ _
  · intro he
    rcases process_item_to_entity_ok h1 with h | ⟨ts, bn, sd, rel, hes⟩
    · subst h
      exact absurd he (by simp)
    · subst hes
      obtain ⟨c, _, _, ht⟩ := mem_processItemCore he
      exact ht

/-- Witness for the amended C1, at the counterexample's concrete
inputs. -/
theorem C1_amended_shared_top1_selection_witness :
    ([(⟨"RTL_Module/alu_x", "OR1200_Golden_Entities/E1", 19/20, "m", false⟩ : REdge)]).length ≤ 1 ∧
    ([(⟨"RTL_Module/alu_x", "OR1200_Golden_Entities/E1", 1, "m", false⟩ : REdge)]).length ≤ 1 ∧
    ((⟨"RTL_Module/alu_x", "OR1200_Golden_Entities/E1", 19/20, "m", false⟩ : REdge) ∈
        [(⟨"RTL_Module/alu_x", "OR1200_Golden_Entities/E1", 19/20, "m", false⟩ : REdge)] →
      (7:ℚ)/10 < (19:ℚ)/20) ∧
    ((⟨"RTL_Module/alu_x", "OR1200_Golden_Entities/E1", 1, "m", false⟩ : REdge) ∈
        [(⟨"RTL_Module/alu_x", "OR1200_Golden_Entities/E1", 1, "m", false⟩ : REdge)] →
      (7:ℚ)/10 < 1) := by
  have h := C1_amended_shared_top1_selection
    ⟨[⟨"OR1200_Golden_Entities/E1", "alu_x", "", some "processor_component"⟩],
      fun _ _ => true, fun _ _ => 0, fun _ => false, fun _ => .ok []⟩
    (fun _ _ => 3/10)
    ⟨"RTL_Module/alu_x", "alu_x", "alu_x", "", "", "", "", "", ""⟩
    (7/10) "m" "" none [] COL_MODULE
    [⟨"RTL_Module/alu_x", "OR1200_Golden_Entities/E1", 19/20, "m", false⟩]
    [⟨"RTL_Module/alu_x", "OR1200_Golden_Entities/E1", 1, "m", false⟩]
    ⟨"RTL_Module/alu_x", "OR1200_Golden_Entities/E1", 19/20, "m", false⟩
    ⟨"RTL_Module/alu_x", "OR1200_Golden_Entities/E1", 1, "m", false⟩
    (by decide) (by decide)
  exact h

theorem process_item_to_entity_fails {db : SearchDb}
    {sim : String × String → String × String → ℚ} {item : Item} {threshold : ℚ}
    {method ctx : String} {pids : Option (List String)}
    (hlabel : (if item.label ≠ "" then item.label else item.name) ≠ "")
    (hterm : ¬(normalize_hardware_name (if item.label ≠ "" then item.label else item.name)
        = "" ∨
      (normalize_hardware_name (if item.label ≠ "" then item.label else item.name)).length
        < 2))
    (hfail : db.queryFails item = true) :
    process_item_to_entity db sim item threshold method ctx pids = .error () := by
  unfold process_item_to_entity
  rw [if_neg hlabel]
  dsimp only
  rw [if_neg hterm, if_pos hfail]

/-- Counterexample for claim C2: two sibling elements in one batch; the
candidate-retrieval query for the second fails.  The whole batch
aborts (`future.result()` re-raises, src/bridger.py:483-484, and the
un-guarded `db.aql.execute` at src/bridger.py:329 propagates), so no
edge is written — not even the first element's successful match, which
the same run without the failure does produce. -/
theorem C2_retrieval_failure_counterexample :
    bridge_collection_parallel
      ⟨[⟨"OR1200_Golden_Entities/E1", "alu_x", "", some "processor_component"⟩],
        fun _ _ => true, fun _ _ => 0, fun it => it.key == "alu_y", fun _ => .ok []⟩
      (fun _ _ => 3/10) [] COL_MODULE
      [⟨"RTL_Module/alu_x", "alu_x", "alu_x", "", "", "", "", "", ""⟩,
       ⟨"RTL_Module/alu_y", "alu_y", "alu_y", "", "", "", "", "", ""⟩]
      (7/10) "m" false []
      = .error ()
    ∧ bridge_collection_parallel
      ⟨[⟨"OR1200_Golden_Entities/E1", "alu_x", "", some "processor_component"⟩],
        fun _ _ => true, fun _ _ => 0, fun _ => false, fun _ => .ok []⟩
      (fun _ _ => 3/10) [] COL_MODULE
      [⟨"RTL_Module/alu_x", "alu_x", "alu_x", "", "", "", "", "", ""⟩,
       ⟨"RTL_Module/alu_y", "alu_y", "alu_y", "", "", "", "", "", ""⟩]
      (7/10) "m" false []
      = .ok [⟨"RTL_Module/alu_x", "OR1200_Golden_Entities/E1", 19/20, "m", false⟩] :=
  ⟨by decide, by decide⟩

/-- Claim C2 (amended): a failure of the neighborhood traversal is
caught inside `get_related_entities` and degrades to the parent ids
alone (src/bridger.py:185-187); but a failure of the candidate-retrieval
query itself is uncaught (src/bridger.py:329) and propagates out of the
worker, so `bridge_collection_parallel` aborts the whole batch and
writes no edges — sibling elements' results included. -/
theorem C2_amended_retrieval_failure_aborts_batch (db : SearchDb)
    (sim : String × String → String × String → ℚ) (modules : List ModuleDoc)
    (colName : String) (items : List Item) (threshold : ℚ) (method : String)
    (truncate : Bool) (resolved : List REdge) (item : Item) (ps : List String)
    (hmem : item ∈ items)
    (hfail : ∀ pl, db.queryFails { item with parent_label := pl } = true)
    (hlabel : (if item.label ≠ "" then item.label else item.name) ≠ "")
    (hterm : ¬(normalize_hardware_name (if item.label ≠ "" then item.label else item.name)
        = "" ∨
      (normalize_hardware_name (if item.label ≠ "" then item.label else item.name)).length
        < 2))
    (htrav : db.trav ps = .error ()) (hps : ps ≠ []) :
    get_related_entities db ps = ps ∧
    bridge_collection_parallel db sim modules colName items threshold method truncate
      resolved = .error () := by
  constructor
  · unfold get_related_entities
    rw [if_neg hps, htrav]
  · have hcol : collectStageEdges db sim modules colName threshold method resolved items
        = .error () := by
      induction items with
      | nil => exact absurd hmem (by simp)
      | cons a rest ih =>
        rcases List.mem_cons.mp hmem with rfl | hrest
        · unfold collectStageEdges
          dsimp only
          have hf : process_item_to_entity db sim
              { item with parent_label :=
                  (itemStageContext colName modules resolved item).2.1 }
              threshold method (itemStageContext colName modules resolved item).1
              (itemStageContext colName modules resolved item).2.2 = .error () :=
            process_item_to_entity_fails hlabel hterm (hfail _)
          rw [hf]
        · unfold collectStageEdges
          dsimp only
          rw [ih hrest]
          cases process_item_to_entity db sim
              { a with parent_label :=
                  (itemStageContext colName modules resolved a).2.1 }
              threshold method (itemStageContext colName modules resolved a).1
              (itemStageContext colName modules resolved a).2.2 with
          | error e => rfl
          | ok l => rfl
    unfold bridge_collection_parallel
    rw [hcol]

/-- Witness for the amended C2: a concrete failing batch. -/
theorem C2_amended_retrieval_failure_aborts_batch_witness :
    get_related_entities
      ⟨[⟨"OR1200_Golden_Entities/E1", "alu_x", "", some "processor_component"⟩],
        fun _ _ => true, fun _ _ => 0, fun _ => true, fun _ => .error ()⟩
      ["OR1200_Golden_Entities/P"] = ["OR1200_Golden_Entities/P"] ∧
    bridge_collection_parallel
      ⟨[⟨"OR1200_Golden_Entities/E1", "alu_x", "", some "processor_component"⟩],
        fun _ _ => true, fun _ _ => 0, fun _ => true, fun _ => .error ()⟩
      (fun _ _ => 3/10) [] COL_MODULE
      [⟨"RTL_Module/alu_x", "alu_x", "alu_x", "", "", "", "", "", ""⟩]
      (7/10) "m" false []
      = .error () := by
  have h := C2_amended_retrieval_failure_aborts_batch
    ⟨[⟨"OR1200_Golden_Entities/E1", "alu_x", "", some "processor_component"⟩],
      fun _ _ => true, fun _ _ => 0, fun _ => true, fun _ => .error ()⟩
    (fun _ _ => 3/10) [] COL_MODULE
    [⟨"RTL_Module/alu_x", "alu_x", "alu_x", "", "", "", "", "", ""⟩]
    (7/10) "m" false []
    ⟨"RTL_Module/alu_x", "alu_x", "alu_x", "", "", "", "", "", ""⟩
    ["OR1200_Golden_Entities/P"]
    (by decide) (fun pl => rfl) (by decide) (by decide) (by decide) (by decide)
  exact h

theorem process_item_to_entity_src {db : SearchDb}
    {sim : String × String → String × String → ℚ} {item : Item} {threshold : ℚ}
    {method ctx : String} {pids : Option (List String)} {es : List REdge}
    (hok : process_item_to_entity db sim item threshold method ctx pids = .ok es) :
    es.length ≤ 1 ∧ ∀ e ∈ es, e.src = item.id := by
  rcases process_item_to_entity_ok hok with h | ⟨ts, bn, sd, rel, hes⟩
  · subst h
    simp
  · subst hes
    refine ⟨length_processItemCore _ _ _ _ _ _ _ _ _ _, ?_⟩
    intro e he
    obtain ⟨c, _, hee, _⟩ := mem_processItemCore he
    rw [hee]

theorem countSrc_append (a b : List REdge) (x : String) :
    countSrc (a ++ b) x = countSrc a x + countSrc b x := by
  unfold countSrc
  rw [List.filter_append, List.length_append]

theorem countSrc_nil (x : String) : countSrc [] x = 0 := rfl

theorem countSrc_eq_zero {es : List REdge} {S : List String} {x : String}
    (hsub : ∀ e ∈ es, e.src ∈ S) (hx : x ∉ S) : countSrc es x = 0 := by
  unfold countSrc
  rw [List.length_eq_zero, List.filter_eq_nil_iff]
  intro e he hbeq
  rw [beq_iff_eq] at hbeq
  exact hx (hbeq ▸ hsub e he)

theorem countSrc_le_length (es : List REdge) (x : String) : countSrc es x ≤ es.length :=
  List.length_filter_le _ _

theorem collectStageEdges_ok {db : SearchDb}
    {sim : String × String → String × String → ℚ} {modules : List ModuleDoc}
    {colName : String} {threshold : ℚ} {method : String} {resolved : List REdge} :
    ∀ {items : List Item} {es : List REdge},
    collectStageEdges db sim modules colName threshold method resolved items = .ok es →
    (∀ e ∈ es, e.src ∈ items.map (fun i => i.id)) ∧
    ((items.map (fun i => i.id)).Nodup → ∀ x, countSrc es x ≤ 1) := by
  intro items
  induction items with
  | nil =>
    intro es hok
    unfold collectStageEdges at hok
    have hes : es = [] := (Except.ok.inj hok).symm
    subst hes
    exact ⟨by simp, fun _ x => by simp [countSrc_nil]⟩
  | cons a rest ih =>
    intro es hok
    unfold collectStageEdges at hok
    dsimp only at hok
    revert hok
    cases hpa : process_item_to_entity db sim
        { a with parent_label := (itemStageContext colName modules resolved a).2.1 }
        threshold method (itemStageContext colName modules resolved a).1
        (itemStageContext colName modules resolved a).2.2 with
    | error err => intro hok; exact absurd hok (by simp)
    | ok l =>
      cases hrest : collectStageEdges db sim modules colName threshold method resolved rest with
      | error err => intro hok; exact absurd hok (by simp)
      | ok ls =>
        intro hok
        have hes : es = l ++ ls := (Except.ok.inj hok).symm
        obtain ⟨hlen, hsrc⟩ := process_item_to_entity_src hpa
        obtain ⟨hsub, hcnt⟩ := ih hrest
        subst hes
        constructor
        · intro e he
          rcases List.mem_append.mp he with h | h
          · rw [List.map_cons, List.mem_cons]
            exact Or.inl (hsrc e h)
          · rw [List.map_cons, List.mem_cons]
            exact Or.inr (hsub e h)
        · intro hnodup x
          rw [List.map_cons, List.nodup_cons] at hnodup
          rw [countSrc_append]
          by_cases hx : x = a.id
          · have h2 : countSrc ls x = 0 := by
              rw [hx]
              exact countSrc_eq_zero hsub hnodup.1
            have h1 : countSrc l x ≤ 1 := (countSrc_le_length l x).trans hlen
            omega
          · have h1 : countSrc l x = 0 := by
              refine countSrc_eq_zero (S := [a.id]) ?_ (by simpa using hx)
              intro e he
              simp [hsrc e he]
            have h2 : countSrc ls x ≤ 1 := hcnt hnodup.2 x
            omega

theorem bridge_collection_parallel_ok {db : SearchDb}
    {sim : String × String → String × String → ℚ} {modules : List ModuleDoc}
    {colName : String} {items : List Item} {threshold : ℚ} {method : String}
    {truncate : Bool} {resolved r : List REdge}
    (hok : bridge_collection_parallel db sim modules colName items threshold method
      truncate resolved = .ok r) :
    ∃ es, collectStageEdges db sim modules colName threshold method resolved items
        = .ok es ∧
      r = (if truncate = true ∧ es ≠ [] then [] else resolved) ++ es := by
  unfold bridge_collection_parallel at hok
  revert hok
  cases hcol : collectStageEdges db sim modules colName threshold method resolved items with
  | error err => intro hok; exact absurd hok (by simp)
  | ok es =>
    intro hok
    dsimp only at hok
    refine ⟨es, rfl, ?_⟩
    by_cases hne : es ≠ []
    · rw [if_pos hne] at hok
      have hr := (Except.ok.inj hok).symm
      cases truncate with
      | true => rw [hr]; simp [hne]
      | false => rw [hr]; simp [hne]
    · rw [if_neg hne] at hok
      have hr := (Except.ok.inj hok).symm
      rw [not_not] at hne
      subst hne
      rw [hr]
      simp

theorem runStages_count {db : SearchDb}
    {sim : String × String → String × String → ℚ} {modules : List ModuleDoc} :
    ∀ {ds : List StageDesc} {r0 r : List REdge} {x : String},
    runStages db sim modules ds r0 = .ok r →
    (ds.flatMap (fun d => d.items.map (fun i => i.id))).Nodup →
    countSrc r0 x +
      (if x ∈ ds.flatMap (fun d => d.items.map (fun i => i.id)) then 1 else 0) ≤ 1 →
    countSrc r x ≤ 1 := by
  intro ds
  induction ds with
  | nil =>
    intro r0 r x hok _ hinv
    have hr : r = r0 := (Except.ok.inj hok).symm
    subst hr
    simpa using hinv
  | cons d ds ih =>
    intro r0 r x hok hnodup hinv
    unfold runStages at hok
    revert hok
    cases hstage : bridge_collection_parallel db sim modules d.colName d.items d.threshold
        d.method d.truncate r0 with
    | error err => intro hok; exact absurd hok (by simp)
    | ok r1 =>
      intro hok
      obtain ⟨es, hcol, hr1⟩ := bridge_collection_parallel_ok hstage
      obtain ⟨hsub, hcnt⟩ := collectStageEdges_ok hcol
      rw [List.flatMap_cons, List.nodup_append] at hnodup
      obtain ⟨hnd1, hnd2, hdisj⟩ := hnodup
      rw [List.flatMap_cons] at hinv
      have hbase_le :
          countSrc (if d.truncate = true ∧ es ≠ [] then ([] : List REdge) else r0) x
            ≤ countSrc r0 x := by
        split_ifs
        · simp [countSrc_nil]
        · exact le_refl _
      have hr1c : countSrc r1 x =
          countSrc (if d.truncate = true ∧ es ≠ [] then ([] : List REdge) else r0) x +
          countSrc es x := by
        rw [hr1, countSrc_append]
      apply ih hok hnd2
      by_cases hx1 : x ∈ d.items.map (fun i => i.id)
      · have hxr : x ∉ ds.flatMap (fun d => d.items.map (fun i => i.id)) := hdisj hx1
        rw [if_neg hxr]
        rw [if_pos (List.mem_append.mpr (Or.inl hx1))] at hinv
        have hes1 : countSrc es x ≤ 1 := hcnt hnd1 x
        omega
      · have hes0 : countSrc es x = 0 := countSrc_eq_zero hsub hx1
        by_cases hx2 : x ∈ ds.flatMap (fun d => d.items.map (fun i => i.id))
        · rw [if_pos hx2]
          rw [if_pos (List.mem_append.mpr (Or.inr hx2))] at hinv
          omega
        · rw [if_neg hx2]
          have hr0le : countSrc r0 x ≤ 1 := by
            split_ifs at hinv <;> omega
          omega

/-- Counterexample for claim C3: a full re-run of `bridge_all` over the
store produced by a previous identical run duplicates the resolution
edge of module `alu_x`.  The `truncate` of the first (bus) stage is
guarded by `if resolved_edges:` (src/bridger.py:488-493): with no bus
matches the store is never truncated and later stages append, so the
element ends up the source of two edges. -/
theorem C3_rerun_accumulates_counterexample :
    bridge_all
      ⟨[⟨"OR1200_Golden_Entities/E1", "alu_x", "", some "processor_component"⟩],
        fun _ _ => true, fun _ _ => 0, fun _ => false, fun _ => .ok []⟩
      (fun _ _ => 3/10)
      ⟨[], [], [], [], [], [],
        [⟨"RTL_Module/alu_x", "alu_x", "alu_x", "", "", "", "", "", ""⟩], [], []⟩
      []
      = .ok [⟨"RTL_Module/alu_x", "OR1200_Golden_Entities/E1", 19/20,
          "module_bridging_v2_poly", false⟩]
    ∧ bridge_all
      ⟨[⟨"OR1200_Golden_Entities/E1", "alu_x", "", some "processor_component"⟩],
        fun _ _ => true, fun _ _ => 0, fun _ => false, fun _ => .ok []⟩
      (fun _ _ => 3/10)
      ⟨[], [], [], [], [], [],
        [⟨"RTL_Module/alu_x", "alu_x", "alu_x", "", "", "", "", "", ""⟩], [], []⟩
      [⟨"RTL_Module/alu_x", "OR1200_Golden_Entities/E1", 19/20,
          "module_bridging_v2_poly", false⟩]
      = .ok [⟨"RTL_Module/alu_x", "OR1200_Golden_Entities/E1", 19/20,
          "module_bridging_v2_poly", false⟩,
         ⟨"RTL_Module/alu_x", "OR1200_Golden_Entities/E1", 19/20,
          "module_bridging_v2_poly", false⟩]
    ∧ countSrc
        [⟨"RTL_Module/alu_x", "OR1200_Golden_Entities/E1", 19/20,
          "module_bridging_v2_poly", false⟩,
         ⟨"RTL_Module/alu_x", "OR1200_Golden_Entities/E1", 19/20,
          "module_bridging_v2_poly", false⟩]
        "RTL_Module/alu_x" = 2 :=
  ⟨by decide, by decide, by decide⟩

/-- Claim C3 (amended): after a `bridge_all` run that starts from an
empty edge store — or any run whose first (bus) stage emits at least
one edge, so that its `truncate` actually fires — every structural
element is the source of at most one resolution edge (the element ids
of the staged collections being pairwise distinct).  When the first
stage emits nothing, the truncate is skipped and edges of a prior run
accumulate with the new ones. -/
theorem C3_amended_at_most_one_edge (db : SearchDb)
    (sim : String × String → String × String → ℚ) (inp : RunInput)
    (resolved0 r : List REdge) (x : String)
    (hok : bridge_all db sim inp resolved0 = .ok r)
    (hnodup : ((bridgeStages inp).flatMap (fun d => d.items.map (fun i => i.id))).Nodup)
    (hbase : resolved0 = [] ∨
      collectStageEdges db sim inp.modules COL_BUS (1/2) "arch_bridging_bus" resolved0
        inp.busItems ≠ .ok []) :
    countSrc r x ≤ 1 := by
  unfold bridge_all bridgeStages at hok
  unfold runStages at hok
  dsimp only at hok
  revert hok
  cases hstage : bridge_collection_parallel db sim inp.modules COL_BUS inp.busItems (1/2)
      "arch_bridging_bus" true resolved0 with
  | error err => intro hok; exact absurd hok (by simp)
  | ok r1 =>
    intro hok
    obtain ⟨es1, hcol1, hr1⟩ := bridge_collection_parallel_ok hstage
    obtain ⟨hsub1, hcnt1⟩ := collectStageEdges_ok hcol1
    have hr1es : r1 = es1 := by
      rcases hbase with hb | hb
      · subst hb
        rw [hr1]
        split_ifs <;> simp
      · have hne : es1 ≠ [] := by
          intro h
          exact hb (h ▸ hcol1)
        rw [hr1, if_pos ⟨rfl, hne⟩]
        simp
    unfold bridgeStages at hnodup
    rw [List.flatMap_cons, List.nodup_append] at hnodup
    obtain ⟨hnd1, hnd2, hdisj⟩ := hnodup
    apply runStages_count hok hnd2
    rw [hr1es]
    by_cases hx1 : x ∈ inp.busItems.map (fun i => i.id)
    · have hes1 : countSrc es1 x ≤ 1 := hcnt1 hnd1 x
      have hxr := hdisj hx1
      rw [if_neg (by simpa using hxr)]
      omega
    · have hes0 : countSrc es1 x = 0 := countSrc_eq_zero hsub1 (by simpa using hx1)
      split_ifs <;> omega

/-- Witness for the amended C3: a fresh run from the empty store. -/
theorem C3_amended_at_most_one_edge_witness :
    countSrc
      [⟨"RTL_Module/alu_x", "OR1200_Golden_Entities/E1", 19/20,
        "module_bridging_v2_poly", false⟩]
      "RTL_Module/alu_x" ≤ 1 := by
  have h := C3_amended_at_most_one_edge
    ⟨[⟨"OR1200_Golden_Entities/E1", "alu_x", "", some "processor_component"⟩],
      fun _ _ => true, fun _ _ => 0, fun _ => false, fun _ => .ok []⟩
    (fun _ _ => 3/10)
    ⟨[], [], [], [], [], [],
      [⟨"RTL_Module/alu_x", "alu_x", "alu_x", "", "", "", "", "", ""⟩], [], []⟩
    []
    [⟨"RTL_Module/alu_x", "OR1200_Golden_Entities/E1", 19/20,
      "module_bridging_v2_poly", false⟩]
    "RTL_Module/alu_x"
    (by decide) (by decide) (Or.inl rfl)
  exact h

/-- Counterexample for claim C9: the pair of normalized names
`("abc", "abcd")` — one a pure prefix of the other, the longer one 4
characters, Levenshtein distance 1, same type, confidence 2/3 above a
0.6 threshold — is rejected by the code's filter (`both_short` compares
the *minimum* of the two lengths against 4, src/consolidator.py:224,
235-237) although the claim's "both names short (<4 characters)" does
not hold.  The tokenizer is irrelevant here: confidences of names of
minimum length ≤ 5 never consult it. -/
theorem C9_prefix_rule_counterexample :
    fuzzyPairOk (fun s => [s]) 1 (3/5)
      ⟨"k1", "abc", some "t", "", [], false, 0⟩
      ⟨"k2", "abcd", some "t", "", [], false, 0⟩ = false
    ∧ fuzzyPairOk_spec_bothShort (fun s => [s]) 1 (3/5)
      ⟨"k1", "abc", some "t", "", [], false, 0⟩
      ⟨"k2", "abcd", some "t", "", [], false, 0⟩ = true
    ∧ min (normName ⟨"k1", "abc", some "t", "", [], false, 0⟩).length
        (normName ⟨"k2", "abcd", some "t", "", [], false, 0⟩).length < 4
    ∧ ¬((normName ⟨"k1", "abc", some "t", "", [], false, 0⟩).length < 4 ∧
        (normName ⟨"k2", "abcd", some "t", "", [], false, 0⟩).length < 4) :=
  ⟨by decide, by decide, by decide, by decide⟩

/-- Characterisation of the candidate-pair filter as a plain
proposition (helper for the C9 analysis). -/
theorem fuzzyPairOk_iff (tok : String → List String) (maxDist : Nat) (minConf : ℚ)
    (a b : GEntity) :
    fuzzyPairOk tok maxDist minConf a b = true ↔
      (strLtb a.key.data b.key.data = true ∧ a.entity_type = b.entity_type ∧
       0 < lev (normName a).data (normName b).data ∧
       lev (normName a).data (normName b).data ≤ maxDist ∧
       minConf ≤ fuzzyConfidence tok (normName a) (normName b)
         (lev (normName a).data (normName b).data) ∧
       ¬((((normName b).data.isPrefixOf (normName a).data) = true ∨
           ((normName a).data.isPrefixOf (normName b).data) = true) ∧
         min (normName a).length (normName b).length < 4)) := by
  unfold fuzzyPairOk
  simp only [Bool.and_eq_true, decide_eq_true_eq, beq_iff_eq, Bool.not_eq_true',
    Bool.and_eq_false_iff, Bool.or_eq_false_iff, Bool.or_eq_true,
    decide_eq_false_iff_not, ← Bool.not_eq_true]
  tauto

/-- Claim C9 (amended): the fuzzy stage's candidate list contains
exactly the ordered same-type pairs from the store with Levenshtein
distance in `(0, max]` and confidence at least the threshold that are
*not* excluded by the prefix rule, where the rule fires when one
normalized name is a pure prefix of the other and the *shorter* name
(the minimum of the two lengths) has fewer than 4 characters; a prefix
pair whose shorter name has 4 or more characters is not excluded. -/
theorem C9_amended_prefix_filter_characterisation
    (tok : String → List String) (maxDist : Nat) (minConf : ℚ)
    (store : List GEntity) (a b : GEntity) :
    (a, b) ∈ fuzzy_candidates tok maxDist minConf store ↔
      a ∈ store ∧ b ∈ store ∧
      strLtb a.key.data b.key.data = true ∧ a.entity_type = b.entity_type ∧
      0 < lev (normName a).data (normName b).data ∧
      lev (normName a).data (normName b).data ≤ maxDist ∧
      minConf ≤ fuzzyConfidence tok (normName a) (normName b)
        (lev (normName a).data (normName b).data) ∧
      ¬((((normName b).data.isPrefixOf (normName a).data) = true ∨
          ((normName a).data.isPrefixOf (normName b).data) = true) ∧
        min (normName a).length (normName b).length < 4) := by
  unfold fuzzy_candidates
  rw [mem_stableSortBy]
  rw [List.mem_flatMap]
  constructor
  · rintro ⟨a', ha', hab⟩
    rw [List.mem_map] at hab
    obtain ⟨b', hb', heq⟩ := hab
    obtain ⟨rfl, rfl⟩ := Prod.mk.injEq .. ▸ And.intro (congrArg Prod.fst heq) (congrArg Prod.snd heq)
    rw [List.mem_filter] at hb'
    have hp := (fuzzyPairOk_iff tok maxDist minConf a b).mp hb'.2
    exact ⟨ha', hb'.1, hp⟩
  · rintro ⟨ha, hb, hrest⟩
    refine ⟨a, ha, ?_⟩
    rw [List.mem_map]
    refine ⟨b, ?_, rfl⟩
    rw [List.mem_filter]
    exact ⟨hb, (fuzzyPairOk_iff tok maxDist minConf a b).mpr hrest⟩

theorem ufFindAux_lookup_none (n : Nat) (p : List (String × String)) (x : String)
    (h : p.lookup x = none) : ufFindAux (n + 1) p x = x := by
  simp [ufFindAux, h]

theorem ufFindAux_lookup_some (n : Nat) (p : List (String × String)) (x y : String)
    (h : p.lookup x = some y) (hyx : y ≠ x) :
    ufFindAux (n + 1) p x = ufFindAux n p y := by
  simp [ufFindAux, h, hyx]

theorem lookup_cons_self (p : List (String × String)) (k v : String) :
    ((k, v) :: p).lookup k = some v := by
  simp [List.lookup]

theorem lookup_cons_ne (p : List (String × String)) (k v x : String) (h : x ≠ k) :
    ((k, v) :: p).lookup x = p.lookup x := by
  have hb : (x == k) = false := beq_eq_false_iff_ne.mpr h
  simp [List.lookup, hb]

theorem ufFindAux_cons (p : List (String × String)) (px py : String)
    (hpx : p.lookup px = none) (hpy : p.lookup py = none) (hne : py ≠ px) :
    ∀ (n : Nat) (x : String), p.lookup (ufFindAux n p x) = none →
      ufFindAux (n + 1) ((px, py) :: p) x =
        if ufFindAux n p x = px then py else ufFindAux n p x := by
  intro n
  induction n with
  | zero =>
    intro x hx
    simp only [ufFindAux] at hx ⊢
    by_cases hxe : x = px
    · rw [if_pos hxe, hxe, lookup_cons_self]
      simp [hne]
    · rw [if_neg hxe, lookup_cons_ne p px py x hxe, hx]
  | succ n ih =>
    intro x hx
    by_cases hl : p.lookup x = none
    · have hx0 : ufFindAux (n + 1) p x = x := ufFindAux_lookup_none n p x hl
      rw [hx0]
      by_cases hxe : x = px
      · rw [if_pos hxe]
        have hstep : ufFindAux (n + 1 + 1) ((px, py) :: p) x
            = ufFindAux (n + 1) ((px, py) :: p) py := by
          apply ufFindAux_lookup_some
          · rw [hxe, lookup_cons_self]
          · rw [hxe]; exact hne
        rw [hstep]
        exact ufFindAux_lookup_none n _ py
          (by rw [lookup_cons_ne p px py py hne]; exact hpy)
      · rw [if_neg hxe]
        exact ufFindAux_lookup_none (n + 1) _ x
          (by rw [lookup_cons_ne p px py x hxe]; exact hl)
    · obtain ⟨y, hy⟩ := Option.ne_none_iff_exists'.mp hl
      have hxne : x ≠ px := by
        intro hh; rw [hh, hpx] at hy; cases hy
      by_cases hyx : y = x
      · exfalso
        have hself : ufFindAux (n + 1) p x = x := by
          simp [ufFindAux, hy, hyx]
        rw [hself] at hx
        rw [hyx] at hy
        rw [hx] at hy
        cases hy
      · have hstep : ufFindAux (n + 1) p x = ufFindAux n p y :=
          ufFindAux_lookup_some n p x y hy hyx
        have hstep' : ufFindAux (n + 1 + 1) ((px, py) :: p) x
            = ufFindAux (n + 1) ((px, py) :: p) y := by
          apply ufFindAux_lookup_some
          · rw [lookup_cons_ne p px py x hxne]; exact hy
          · exact hyx
        rw [hstep', hstep]
        exact ih y (by rw [← hstep]; exact hx)

theorem ufFind_cons (p : List (String × String)) (px py x : String)
    (hpx : p.lookup px = none) (hpy : p.lookup py = none) (hne : py ≠ px)
    (hroot : p.lookup (ufFind p x) = none) :
    ufFind ((px, py) :: p) x = if ufFind p x = px then py else ufFind p x := by
  unfold ufFind at *
  have h := ufFindAux_cons p px py hpx hpy hne (p.length + 1) x hroot
  simpa [List.length_cons] using h


theorem ufInv_nil : UFInv [] := by
  intro z
  simp [List.lookup]

theorem ufUnion_inv (p : List (String × String)) (x y : String) (h : UFInv p) :
    UFInv (ufUnion p x y) := by
  intro z
  unfold ufUnion
  by_cases he : ufFind p x = ufFind p y
  · simpa [he] using h z
  · simp only [if_neg he]
    have hne : ufFind p y ≠ ufFind p x := fun hh => he hh.symm
    rw [ufFind_cons p _ _ z (h x) (h y) hne (h z)]
    by_cases hz : ufFind p z = ufFind p x
    · rw [if_pos hz, lookup_cons_ne p _ _ _ hne]
      exact h y
    · rw [if_neg hz, lookup_cons_ne p _ _ _ hz]
      exact h z

theorem ufUnion_joins (p : List (String × String)) (x y : String) (h : UFInv p) :
    ufFind (ufUnion p x y) x = ufFind (ufUnion p x y) y := by
  unfold ufUnion
  by_cases he : ufFind p x = ufFind p y
  · simp [he]
  · simp only [if_neg he]
    have hne : ufFind p y ≠ ufFind p x := fun hh => he hh.symm
    rw [ufFind_cons p _ _ x (h x) (h y) hne (h x),
        ufFind_cons p _ _ y (h x) (h y) hne (h y)]
    rw [if_pos rfl, if_neg hne]

theorem ufUnion_preserves (p : List (String × String)) (x y a b : String) (h : UFInv p)
    (hab : ufFind p a = ufFind p b) :
    ufFind (ufUnion p x y) a = ufFind (ufUnion p x y) b := by
  unfold ufUnion
  by_cases he : ufFind p x = ufFind p y
  · simpa [he] using hab
  · simp only [if_neg he]
    have hne : ufFind p y ≠ ufFind p x := fun hh => he hh.symm
    rw [ufFind_cons p _ _ a (h x) (h y) hne (h a),
        ufFind_cons p _ _ b (h x) (h y) hne (h b), hab]

theorem ufBuild_aux (pairs : List (String × String)) :
    ∀ (p : List (String × String)), UFInv p →
    ∀ a b : String, ((a, b) ∈ pairs ∨ ufFind p a = ufFind p b) →
    ufFind (pairs.foldl (fun q c => ufUnion q c.1 c.2) p) a
      = ufFind (pairs.foldl (fun q c => ufUnion q c.1 c.2) p) b := by
  induction pairs with
  | nil =>
    intro p _ a b h
    rcases h with h | h
    · cases h
    · exact h
  | cons c cs ih =>
    intro p hInv a b h
    simp only [List.foldl_cons]
    apply ih (ufUnion p c.1 c.2) (ufUnion_inv p c.1 c.2 hInv)
    rcases h with h | h
    · rcases List.mem_cons.mp h with heq | hmem
      · right
        have h1 : c.1 = a := by rw [← heq]
        have h2 : c.2 = b := by rw [← heq]
        rw [← h1, ← h2]
        exact ufUnion_joins p c.1 c.2 hInv
      · left; exact hmem
    · right
      exact ufUnion_preserves p c.1 c.2 a b hInv h

theorem ufBuild_inv (pairs : List (String × String)) : UFInv (ufBuild pairs) := by
  unfold ufBuild
  have h : ∀ (p : List (String × String)), UFInv p →
      UFInv (pairs.foldl (fun q c => ufUnion q c.1 c.2) p) := by
    induction pairs with
    | nil => intro p hp; exact hp
    | cons c cs ih =>
      intro p hp
      simp only [List.foldl_cons]
      exact ih (ufUnion p c.1 c.2) (ufUnion_inv p c.1 c.2 hp)
  exact h [] ufInv_nil

theorem ufBuild_pair_eq (pairs : List (String × String)) (a b : String)
    (h : (a, b) ∈ pairs) :
    ufFind (ufBuild pairs) a = ufFind (ufBuild pairs) b :=
  ufBuild_aux pairs [] ufInv_nil a b (Or.inl h)

theorem mem_fuzzy_candidates (tok : String → List String) (maxDist : Nat) (minConf : ℚ)
    (store : List GEntity) (a b : GEntity) :
    (a, b) ∈ fuzzy_candidates tok maxDist minConf store ↔
      a ∈ store ∧ b ∈ store ∧ fuzzyPairOk tok maxDist minConf a b = true := by
  unfold fuzzy_candidates
  rw [mem_stableSortBy, List.mem_flatMap]
  constructor
  · rintro ⟨a', ha', hab⟩
    rw [List.mem_map] at hab
    obtain ⟨b', hb', heq⟩ := hab
    obtain ⟨rfl, rfl⟩ := Prod.mk.injEq .. ▸ And.intro (congrArg Prod.fst heq) (congrArg Prod.snd heq)
    rw [List.mem_filter] at hb'
    exact ⟨ha', hb'.1, hb'.2⟩
  · rintro ⟨ha, hb, hok⟩
    exact ⟨a, ha, List.mem_map.mpr ⟨b, List.mem_filter.mpr ⟨hb, hok⟩, rfl⟩⟩

theorem mergeRoots_mem (P : List (String × String)) (cands : List (GEntity × GEntity))
    (c : GEntity × GEntity) (hc : c ∈ cands) :
    ufFind P (geid c.1) ∈ mergeRoots P cands := by
  unfold mergeRoots
  rw [mem_dedupKeepFirst]
  exact List.mem_map.mpr ⟨c, hc, rfl⟩

theorem mergeGroupIds_mem (P : List (String × String)) (cands : List (GEntity × GEntity))
    (c : GEntity × GEntity) (hc : c ∈ cands) (e : String)
    (he : e = geid c.1 ∨ e = geid c.2) :
    e ∈ mergeGroupIds P cands (ufFind P (geid c.1)) := by
  unfold mergeGroupIds
  rw [mem_dedupKeepFirst]
  refine List.mem_flatMap.mpr ⟨c, List.mem_filter.mpr ⟨hc, by simp⟩, ?_⟩
  rcases he with rfl | rfl <;> simp

theorem mergeGroupIds_root (cands : List (GEntity × GEntity)) (r e : String)
    (h : e ∈ mergeGroupIds (ufOfCands cands) cands r) :
    ufFind (ufOfCands cands) e = r := by
  unfold mergeGroupIds at h
  rw [mem_dedupKeepFirst] at h
  rw [List.mem_flatMap] at h
  obtain ⟨c, hc, he⟩ := h
  rw [List.mem_filter] at hc
  have hcr : ufFind (ufOfCands cands) (geid c.1) = r := by
    have := hc.2
    simpa using this
  have hpair : ufFind (ufOfCands cands) (geid c.1) = ufFind (ufOfCands cands) (geid c.2) := by
    unfold ufOfCands
    exact ufBuild_pair_eq _ _ _ (List.mem_map.mpr ⟨c, hc.1, rfl⟩)
  simp only [List.mem_cons, List.not_mem_nil, or_false] at he
  rcases he with rfl | rfl
  · exact hcr
  · rw [← hpair]
    exact hcr

/-- Claim C8: the merge clusters built by the fuzzy stage's union-find
partition the candidate ids: every golden-entity id occurring in a
qualifying candidate pair belongs to at least one merge group whose
root is live (listed in `mergeRoots`), and it belongs to the group of
exactly one root — no id is a member of two distinct simultaneously
built clusters. -/
theorem C8_merge_clusters_partition (tok : String → List String) (maxDist : Nat)
    (minConf : ℚ) (store : List GEntity) (e : String)
    (hocc : ∃ c ∈ fuzzy_candidates tok maxDist minConf store,
      e = geid c.1 ∨ e = geid c.2) :
    (∃ r ∈ mergeRoots (ufOfCands (fuzzy_candidates tok maxDist minConf store))
        (fuzzy_candidates tok maxDist minConf store),
      e ∈ mergeGroupIds (ufOfCands (fuzzy_candidates tok maxDist minConf store))
        (fuzzy_candidates tok maxDist minConf store) r) ∧
    (∀ r1 r2 : String,
      e ∈ mergeGroupIds (ufOfCands (fuzzy_candidates tok maxDist minConf store))
        (fuzzy_candidates tok maxDist minConf store) r1 →
      e ∈ mergeGroupIds (ufOfCands (fuzzy_candidates tok maxDist minConf store))
        (fuzzy_candidates tok maxDist minConf store) r2 →
      r1 = r2) := by
  constructor
  · obtain ⟨c, hc, he⟩ := hocc
    exact ⟨ufFind (ufOfCands (fuzzy_candidates tok maxDist minConf store)) (geid c.1),
      mergeRoots_mem _ _ c hc,
      mergeGroupIds_mem _ _ c hc e he⟩
  · intro r1 r2 h1 h2
    rw [← mergeGroupIds_root _ r1 e h1, ← mergeGroupIds_root _ r2 e h2]

/-- Witness for C8 at a concrete two-entity store whose single
candidate pair makes the occurrence hypothesis decidable. -/
theorem C8_merge_clusters_partition_witness :
    (∃ c ∈ fuzzy_candidates (fun s => [s]) 1 (3/5)
        [⟨"k1", "abcx", some "t", "d1", ["al"], false, 0⟩,
         ⟨"k2", "abcy", some "t", "d2", [], false, 0⟩],
      "OR1200_Golden_Entities/k1" = geid c.1 ∨ "OR1200_Golden_Entities/k1" = geid c.2) ∧
    ((∃ r ∈ mergeRoots (ufOfCands (fuzzy_candidates (fun s => [s]) 1 (3/5)
          [⟨"k1", "abcx", some "t", "d1", ["al"], false, 0⟩,
           ⟨"k2", "abcy", some "t", "d2", [], false, 0⟩]))
        (fuzzy_candidates (fun s => [s]) 1 (3/5)
          [⟨"k1", "abcx", some "t", "d1", ["al"], false, 0⟩,
           ⟨"k2", "abcy", some "t", "d2", [], false, 0⟩]),
      "OR1200_Golden_Entities/k1" ∈ mergeGroupIds (ufOfCands (fuzzy_candidates (fun s => [s]) 1 (3/5)
          [⟨"k1", "abcx", some "t", "d1", ["al"], false, 0⟩,
           ⟨"k2", "abcy", some "t", "d2", [], false, 0⟩]))
        (fuzzy_candidates (fun s => [s]) 1 (3/5)
          [⟨"k1", "abcx", some "t", "d1", ["al"], false, 0⟩,
           ⟨"k2", "abcy", some "t", "d2", [], false, 0⟩]) r) ∧
    (∀ r1 r2 : String,
      "OR1200_Golden_Entities/k1" ∈ mergeGroupIds (ufOfCands (fuzzy_candidates (fun s => [s]) 1 (3/5)
          [⟨"k1", "abcx", some "t", "d1", ["al"], false, 0⟩,
           ⟨"k2", "abcy", some "t", "d2", [], false, 0⟩]))
        (fuzzy_candidates (fun s => [s]) 1 (3/5)
          [⟨"k1", "abcx", some "t", "d1", ["al"], false, 0⟩,
           ⟨"k2", "abcy", some "t", "d2", [], false, 0⟩]) r1 →
      "OR1200_Golden_Entities/k1" ∈ mergeGroupIds (ufOfCands (fuzzy_candidates (fun s => [s]) 1 (3/5)
          [⟨"k1", "abcx", some "t", "d1", ["al"], false, 0⟩,
           ⟨"k2", "abcy", some "t", "d2", [], false, 0⟩]))
        (fuzzy_candidates (fun s => [s]) 1 (3/5)
          [⟨"k1", "abcx", some "t", "d1", ["al"], false, 0⟩,
           ⟨"k2", "abcy", some "t", "d2", [], false, 0⟩]) r2 →
      r1 = r2)) :=
  ⟨by decide, C8_merge_clusters_partition (fun s => [s]) 1 (3/5)
    [⟨"k1", "abcx", some "t", "d1", ["al"], false, 0⟩,
     ⟨"k2", "abcy", some "t", "d2", [], false, 0⟩]
    "OR1200_Golden_Entities/k1" (by decide)⟩

theorem strLtb_irrefl : ∀ l : List Char, strLtb l l = false
  | [] => rfl
  | a :: as => by
    simp [strLtb, strLtb_irrefl as, lt_irrefl]

theorem geid_congr (x y : GEntity) (h : x.key = y.key) : geid x = geid y := by
  unfold geid
  rw [h]

theorem geid_key_inj (x y : GEntity) (h : geid x = geid y) : x.key = y.key := by
  unfold geid at h
  have hd := congrArg String.data h
  simp only [String.data_append, List.append_assoc] at hd
  have h1 := List.append_cancel_left hd
  have h2 := List.append_cancel_left h1
  exact String.ext h2

theorem fuzzyPairOk_congr (tok : String → List String) (maxDist : Nat) (minConf : ℚ)
    (a a0 b b0 : GEntity)
    (hak : a.key = a0.key) (han : a.entity_name = a0.entity_name)
    (hat : a.entity_type = a0.entity_type)
    (hbk : b.key = b0.key) (hbn : b.entity_name = b0.entity_name)
    (hbt : b.entity_type = b0.entity_type) :
    fuzzyPairOk tok maxDist minConf a b = fuzzyPairOk tok maxDist minConf a0 b0 := by
  unfold fuzzyPairOk normName
  rw [hak, han, hat, hbk, hbn, hbt]

theorem two_le_length_of_mem {α : Type} (l : List α) (a b : α)
    (ha : a ∈ l) (hb : b ∈ l) (hne : a ≠ b) : 2 ≤ l.length := by
  cases l with
  | nil => cases ha
  | cons x xs =>
    simp only [List.mem_cons] at ha hb
    rcases ha with rfl | ha
    · rcases hb with rfl | hb
      · exact absurd rfl hne
      · have hpos := List.length_pos.mpr (List.ne_nil_of_mem hb)
        simp only [List.length_cons]
        omega
    · have hpos := List.length_pos.mpr (List.ne_nil_of_mem ha)
      simp only [List.length_cons]
      omega

theorem electPrimary_eq_none (l : List GEntity) : electPrimary l = none ↔ l = [] := by
  cases l <;> simp [electPrimary]

theorem mergeStores_nil (gIds : String → List String) (st : List GEntity) :
    mergeStores gIds [] st = st := rfl

theorem mergeStores_cons (gIds : String → List String) (r : String) (rs : List String)
    (st : List GEntity) :
    mergeStores gIds (r :: rs) st = mergeStores gIds rs (mergeOneGroup st (gIds r)).1 := rfl

theorem mergeOneGroup_trace (st : List GEntity) (ids : List String) (x : GEntity)
    (hx : x ∈ (mergeOneGroup st ids).1) :
    ∃ x0 ∈ st, x.key = x0.key ∧ x.entity_name = x0.entity_name ∧
      x.entity_type = x0.entity_type := by
  unfold mergeOneGroup at hx
  by_cases h2 : ids.length < 2
  · rw [if_pos h2] at hx
    exact ⟨x, hx, rfl, rfl, rfl⟩
  · rw [if_neg h2] at hx
    dsimp only at hx
    revert hx
    cases hE : electPrimary (st.filter fun g => decide (geid g ∈ ids)) with
    | none =>
      intro hx
      exact ⟨x, hx, rfl, rfl, rfl⟩
    | some primary =>
      intro hx
      dsimp only at hx
      rw [List.mem_filter] at hx
      obtain ⟨hx1, _⟩ := hx
      rw [List.mem_map] at hx1
      obtain ⟨g, hg, hfg⟩ := hx1
      refine ⟨g, hg, ?_⟩
      rw [← hfg]
      split <;> exact ⟨rfl, rfl, rfl⟩

theorem mergeOneGroup_establish (st : List GEntity) (ids : List String)
    (h2 : 2 ≤ ids.length) (x y : GEntity)
    (hx : x ∈ (mergeOneGroup st ids).1) (hy : y ∈ (mergeOneGroup st ids).1)
    (hgx : geid x ∈ ids) (hgy : geid y ∈ ids) : geid x = geid y := by
  have h2' : ¬ ids.length < 2 := by omega
  unfold mergeOneGroup at hx hy
  rw [if_neg h2'] at hx hy
  dsimp only at hx hy
  revert hx hy
  cases hE : electPrimary (st.filter fun g => decide (geid g ∈ ids)) with
  | none =>
    intro hx hy
    dsimp only at hx
    rw [electPrimary_eq_none] at hE
    exfalso
    have hxf : x ∈ st.filter (fun g => decide (geid g ∈ ids)) :=
      List.mem_filter.mpr ⟨hx, by simpa using hgx⟩
    rw [hE] at hxf
    cases hxf
  | some primary =>
    intro hx hy
    dsimp only at hx hy
    rw [List.mem_filter] at hx hy
    obtain ⟨hx1, hx2⟩ := hx
    obtain ⟨hy1, hy2⟩ := hy
    rw [List.mem_map] at hx1 hy1
    obtain ⟨gx, hgx', hfx⟩ := hx1
    obtain ⟨gy, hgy', hfy⟩ := hy1
    have hgeidx : geid x = geid gx := by
      rw [← hfx]
      split <;> rfl
    have hgeidy : geid y = geid gy := by
      rw [← hfy]
      split <;> rfl
    simp only [decide_eq_true_eq] at hx2 hy2
    have hxp : geid x = geid primary := by
      by_contra hne
      apply hx2
      refine List.mem_map.mpr ⟨gx, List.mem_filter.mpr ⟨List.mem_filter.mpr ⟨hgx', ?_⟩, ?_⟩,
        hgeidx.symm⟩
      · rw [← hgeidx]
        simpa using hgx
      · rw [← hgeidx]
        simpa using hne
    have hyp : geid y = geid primary := by
      by_contra hne
      apply hy2
      refine List.mem_map.mpr ⟨gy, List.mem_filter.mpr ⟨List.mem_filter.mpr ⟨hgy', ?_⟩, ?_⟩,
        hgeidy.symm⟩
      · rw [← hgeidy]
        simpa using hgy
      · rw [← hgeidy]
        simpa using hne
    rw [hxp, hyp]

theorem mergeOneGroup_preserveQ (st : List GEntity) (ids ids0 : List String)
    (hq : ∀ x ∈ st, ∀ y ∈ st, geid x ∈ ids0 → geid y ∈ ids0 → geid x = geid y)
    (x y : GEntity) (hx : x ∈ (mergeOneGroup st ids).1) (hy : y ∈ (mergeOneGroup st ids).1)
    (hgx : geid x ∈ ids0) (hgy : geid y ∈ ids0) : geid x = geid y := by
  obtain ⟨x0, hx0, hxk, _, _⟩ := mergeOneGroup_trace st ids x hx
  obtain ⟨y0, hy0, hyk, _, _⟩ := mergeOneGroup_trace st ids y hy
  have ex : geid x = geid x0 := geid_congr _ _ hxk
  have ey : geid y = geid y0 := geid_congr _ _ hyk
  rw [ex] at hgx ⊢
  rw [ey] at hgy ⊢
  exact hq x0 hx0 y0 hy0 hgx hgy

theorem mergeStores_preserveQ (gIds : String → List String) (ids0 : List String) :
    ∀ (roots : List String) (st : List GEntity),
    (∀ x ∈ st, ∀ y ∈ st, geid x ∈ ids0 → geid y ∈ ids0 → geid x = geid y) →
    ∀ x ∈ mergeStores gIds roots st, ∀ y ∈ mergeStores gIds roots st,
      geid x ∈ ids0 → geid y ∈ ids0 → geid x = geid y := by
  intro roots
  induction roots with
  | nil =>
    intro st hq
    simpa [mergeStores_nil] using hq
  | cons r rs ih =>
    intro st hq
    rw [mergeStores_cons]
    exact ih _ (fun x hx y hy => mergeOneGroup_preserveQ st (gIds r) ids0 hq x y hx hy)

theorem mergeStores_Q (gIds : String → List String) (r : String)
    (h2 : 2 ≤ (gIds r).length) :
    ∀ (roots : List String), r ∈ roots → ∀ (st : List GEntity),
    ∀ x ∈ mergeStores gIds roots st, ∀ y ∈ mergeStores gIds roots st,
      geid x ∈ gIds r → geid y ∈ gIds r → geid x = geid y := by
  intro roots
  induction roots with
  | nil =>
    intro h
    cases h
  | cons r' rs ih =>
    intro hr st
    rw [mergeStores_cons]
    by_cases he : r' = r
    · intro x hx y hy hgx hgy
      refine mergeStores_preserveQ gIds (gIds r) rs _ ?_ x hx y hy hgx hgy
      intro a ha b hb hga hgb
      rw [he] at ha hb
      exact mergeOneGroup_establish st (gIds r) h2 a b ha hb hga hgb
    · rcases List.mem_cons.mp hr with h | h
      · exact absurd h.symm he
      · exact ih h _

theorem mergeStores_trace (gIds : String → List String) :
    ∀ (roots : List String) (st : List GEntity) (x : GEntity),
    x ∈ mergeStores gIds roots st →
    ∃ x0 ∈ st, x.key = x0.key ∧ x.entity_name = x0.entity_name ∧
      x.entity_type = x0.entity_type := by
  intro roots
  induction roots with
  | nil =>
    intro st x hx
    rw [mergeStores_nil] at hx
    exact ⟨x, hx, rfl, rfl, rfl⟩
  | cons r rs ih =>
    intro st x hx
    rw [mergeStores_cons] at hx
    obtain ⟨x1, hx1, h1⟩ := ih _ x hx
    obtain ⟨x0, hx0, h0⟩ := mergeOneGroup_trace st (gIds r) x1 hx1
    exact ⟨x0, hx0, h1.1.trans h0.1, h1.2.1.trans h0.2.1, h1.2.2.trans h0.2.2⟩

theorem consolidate_fuzzy_stage2_of_empty (tok : String → List String) (maxDist : Nat)
    (minConf : ℚ) (st : List GEntity)
    (h : fuzzy_candidates tok maxDist minConf st = []) :
    consolidate_fuzzy_stage2 tok maxDist minConf st = (st, 0) := by
  unfold consolidate_fuzzy_stage2
  simp [h]

theorem foldl_merge_fst (gIds : String → List String) :
    ∀ (roots : List String) (st : List GEntity) (n : Nat),
    (roots.foldl (fun acc r =>
        let p := mergeOneGroup acc.1 (gIds r)
        (p.1, acc.2 + p.2)) (st, n)).1 = mergeStores gIds roots st := by
  intro roots
  induction roots with
  | nil =>
    intro st n
    rfl
  | cons r rs ih =>
    intro st n
    rw [List.foldl_cons, mergeStores_cons]
    exact ih _ _

theorem consolidate_fuzzy_stage2_fst (tok : String → List String) (maxDist : Nat)
    (minConf : ℚ) (store : List GEntity)
    (h : ¬ fuzzy_candidates tok maxDist minConf store = []) :
    (consolidate_fuzzy_stage2 tok maxDist minConf store).1 =
      mergeStores
        (mergeGroupIds (ufOfCands (fuzzy_candidates tok maxDist minConf store))
          (fuzzy_candidates tok maxDist minConf store))
        (mergeRoots (ufOfCands (fuzzy_candidates tok maxDist minConf store))
          (fuzzy_candidates tok maxDist minConf store))
        store := by
  unfold consolidate_fuzzy_stage2
  dsimp only
  rw [if_neg h]
  exact foldl_merge_fst _ _ _ _

/-- Claim C6: the fuzzy consolidation stage is a fixed point on its own
output — running `consolidate_fuzzy_stage2` on the store a first run
produced finds no qualifying candidate pairs and performs zero merges,
for every tokenizer, distance bound, confidence threshold and store. -/
theorem C6_stage2_fixed_point (tok : String → List String) (maxDist : Nat) (minConf : ℚ)
    (store : List GEntity) :
    consolidate_fuzzy_stage2 tok maxDist minConf
        (consolidate_fuzzy_stage2 tok maxDist minConf store).1
      = ((consolidate_fuzzy_stage2 tok maxDist minConf store).1, 0) := by
  have hempty : fuzzy_candidates tok maxDist minConf
      (consolidate_fuzzy_stage2 tok maxDist minConf store).1 = [] := by
    rw [List.eq_nil_iff_forall_not_mem]
    intro p hp
    obtain ⟨a, b⟩ := p
    rw [mem_fuzzy_candidates] at hp
    obtain ⟨ha, hb, hok⟩ := hp
    by_cases hc : fuzzy_candidates tok maxDist minConf store = []
    · have hs : (consolidate_fuzzy_stage2 tok maxDist minConf store).1 = store := by
        rw [consolidate_fuzzy_stage2_of_empty tok maxDist minConf store hc]
      rw [hs] at ha hb
      have hmem : (a, b) ∈ fuzzy_candidates tok maxDist minConf store :=
        (mem_fuzzy_candidates tok maxDist minConf store a b).mpr ⟨ha, hb, hok⟩
      rw [hc] at hmem
      cases hmem
    · have hs := consolidate_fuzzy_stage2_fst tok maxDist minConf store hc
      rw [hs] at ha hb
      obtain ⟨a0, ha0, hak, han, hat⟩ := mergeStores_trace _ _ _ a ha
      obtain ⟨b0, hb0, hbk, hbn, hbt⟩ := mergeStores_trace _ _ _ b hb
      have hok0 : fuzzyPairOk tok maxDist minConf a0 b0 = true := by
        rw [← fuzzyPairOk_congr tok maxDist minConf a a0 b b0 hak han hat hbk hbn hbt]
        exact hok
      have hmem0 : (a0, b0) ∈ fuzzy_candidates tok maxDist minConf store :=
        (mem_fuzzy_candidates tok maxDist minConf store a0 b0).mpr ⟨ha0, hb0, hok0⟩
      have hlt : strLtb a0.key.data b0.key.data = true :=
        ((fuzzyPairOk_iff tok maxDist minConf a0 b0).mp hok0).1
      have hne : geid a0 ≠ geid b0 := by
        intro hh
        have hk := geid_key_inj _ _ hh
        rw [hk, strLtb_irrefl] at hlt
        cases hlt
      have hga := mergeGroupIds_mem
        (ufOfCands (fuzzy_candidates tok maxDist minConf store))
        (fuzzy_candidates tok maxDist minConf store) (a0, b0) hmem0 (geid a0) (Or.inl rfl)
      have hgb := mergeGroupIds_mem
        (ufOfCands (fuzzy_candidates tok maxDist minConf store))
        (fuzzy_candidates tok maxDist minConf store) (a0, b0) hmem0 (geid b0) (Or.inr rfl)
      have hr := mergeRoots_mem
        (ufOfCands (fuzzy_candidates tok maxDist minConf store))
        (fuzzy_candidates tok maxDist minConf store) (a0, b0) hmem0
      have h2 : 2 ≤ (mergeGroupIds
          (ufOfCands (fuzzy_candidates tok maxDist minConf store))
          (fuzzy_candidates tok maxDist minConf store)
          (ufFind (ufOfCands (fuzzy_candidates tok maxDist minConf store))
            (geid (a0, b0).1))).length :=
        two_le_length_of_mem _ _ _ hga hgb hne
      have hga' : geid a ∈ mergeGroupIds
          (ufOfCands (fuzzy_candidates tok maxDist minConf store))
          (fuzzy_candidates tok maxDist minConf store)
          (ufFind (ufOfCands (fuzzy_candidates tok maxDist minConf store))
            (geid (a0, b0).1)) := by
        rw [geid_congr a a0 hak]
        exact hga
      have hgb' : geid b ∈ mergeGroupIds
          (ufOfCands (fuzzy_candidates tok maxDist minConf store))
          (fuzzy_candidates tok maxDist minConf store)
          (ufFind (ufOfCands (fuzzy_candidates tok maxDist minConf store))
            (geid (a0, b0).1)) := by
        rw [geid_congr b b0 hbk]
        exact hgb
      have hQ := mergeStores_Q
        (mergeGroupIds (ufOfCands (fuzzy_candidates tok maxDist minConf store))
          (fuzzy_candidates tok maxDist minConf store))
        (ufFind (ufOfCands (fuzzy_candidates tok maxDist minConf store)) (geid (a0, b0).1))
        h2
        (mergeRoots (ufOfCands (fuzzy_candidates tok maxDist minConf store))
          (fuzzy_candidates tok maxDist minConf store))
        hr store a ha b hb hga' hgb'
      apply hne
      rw [← geid_congr a a0 hak, ← geid_congr b b0 hbk]
      exact hQ
  rw [consolidate_fuzzy_stage2_of_empty tok maxDist minConf _ hempty]
